import Mathlib

/-!
# The redistribution table of babeld (`src/babeld/xroute.c`)

A shallow embedding of the exported-route table: the three file-level variables
`xroutes`, `numxroutes`, `maxxroutes` become one record that every operation takes
and returns; `malloc`/`realloc` outcomes are an explicit boolean argument.

C `int` counters are unbounded naturals here: the only arithmetic on them is
`numxroutes++`, `numxroutes--` (guarded by the assertion), `2 * maxxroutes`,
`maxxroutes / 2` and `maxxroutes / 4`; signed overflow of `2 * maxxroutes` (a table of
`2^30` slots) is outside the model.

The functions `xroute.c` calls and does not define (`martian_prefix`,
`redistribute_filter`, `find_installed_route`, `uninstall_route`, `send_update`,
`inaddr_to_uchar`, `in6addr_to_uchar`) and the constant `INFINITY` are parameters; the
calls to `find_installed_route`, `uninstall_route` and `send_update` are recorded in
order. An `unsigned short` or `unsigned char` argument computed by an expression is
reduced modulo `2^16` or `2^8`.

The C identifiers `prefix` and `src_prefix` are spelled `pfx` and `src_pfx`.
-/

namespace Babel

/-- One octet (`unsigned char`). -/
abbrev Byte := Fin 256

/-- A 16-octet address buffer (`unsigned char [16]`). -/
abbrev Addr := { l : List Byte // l.length = 16 }

/-- The all-zero address (`zeroes` of `util.c`, also what `memset(.., 0, ..)` leaves). -/
def zeroes : Addr := ⟨List.replicate 16 0, rfl⟩

/-- `struct xroute`: the table's entry. `pfx`/`src_pfx` are the C fields
`prefix`/`src_prefix`. `plen`, `src_plen` are `unsigned char`, `metric` is
`unsigned short`, `ifindex` is `unsigned int`, `proto` is `int`. -/
structure Xroute where
  pfx : Addr
  plen : Nat
  src_pfx : Addr
  src_plen : Nat
  metric : Nat
  ifindex : Nat
  proto : Int
deriving DecidableEq

/-- The entry all of whose bytes are zero: one slot after `memset(p, 0, ..)`. -/
def Xroute.zero : Xroute :=
  { pfx := zeroes, plen := 0, src_pfx := zeroes, src_plen := 0,
    metric := 0, ifindex := 0, proto := 0 }

/-- The key of an entry: (prefix, plen, src_prefix, src_plen). -/
def Xroute.key (x : Xroute) : Addr × Nat × Addr × Nat :=
  (x.pfx, x.plen, x.src_pfx, x.src_plen)

/-- The file-level state of `xroute.c`. `xroutes = none` is the `NULL` pointer;
`some xs` is a backing array whose slots are `xs` (all of them, also those at or
above `numxroutes`). -/
structure Table where
  xroutes : Option (List Xroute)
  numxroutes : Nat
  maxxroutes : Nat
deriving DecidableEq

/-- The initial state: `xroutes` is `NULL`, `numxroutes = 0`, `maxxroutes = 0`. -/
def Table.empty : Table := { xroutes := none, numxroutes := 0, maxxroutes := 0 }

/-- The slots of the backing array (none for `NULL`). -/
def Table.slots (t : Table) : List Xroute := t.xroutes.getD []

/-- The stored entries: slots `0 .. numxroutes - 1`. -/
def Table.entries (t : Table) : List Xroute := t.slots.take t.numxroutes

/-- Read of `xroutes[i]`. -/
def Table.get (t : Table) (i : Nat) : Xroute := t.slots.getD i Xroute.zero

/-- Write of `xroutes[i] = x`. -/
def Table.store (t : Table) (i : Nat) (x : Xroute) : Table :=
  { t with xroutes := t.xroutes.map (fun xs => xs.set i x) }

/-- Memory safety of a state: `NULL` goes with no slot in use and no capacity; a
backing array has exactly `maxxroutes` slots, of which at most all are in use. -/
def Table.wf (t : Table) : Prop :=
  match t.xroutes with
  | none => t.numxroutes = 0 ∧ t.maxxroutes = 0
  | some xs => xs.length = t.maxxroutes ∧ t.numxroutes ≤ t.maxxroutes

instance (t : Table) : Decidable t.wf := by
  unfold Table.wf
  cases t.xroutes <;> exact inferInstance

/-- The test `memcmp(a, b, 16) == 0` on two 16-octet buffers. -/
def memcmp16_eq (a b : Addr) : Bool := decide (a = b)

/-- The condition of the `if` inside the loop of `find_xroute` (lines 119-122). -/
def key_matches (x : Xroute) (p : Addr) (plen : Nat) (sp : Addr) (src_plen : Nat) : Bool :=
  x.plen == plen && memcmp16_eq x.pfx p && x.src_plen == src_plen && memcmp16_eq x.src_pfx sp

/-- The loop of `find_xroute`, at index `i` with `fuel = numxroutes - i` iterations
left. The result is the index of the slot the returned pointer designates. -/
def find_xroute_loop (xs : List Xroute) (p : Addr) (plen : Nat) (sp : Addr) (src_plen : Nat) :
    Nat → Nat → Option Nat
  | 0, _ => none
  | fuel + 1, i =>
    match xs[i]? with
    | some x =>
      if key_matches x p plen sp src_plen then some i
      else find_xroute_loop xs p plen sp src_plen fuel (i + 1)
    | none => none

/-- `find_xroute` (lines 113-126): `none` is `NULL`, `some i` is `&xroutes[i]`. -/
def find_xroute (t : Table) (p : Addr) (plen : Nat) (sp : Addr) (src_plen : Nat) : Option Nat :=
  find_xroute_loop t.slots p plen sp src_plen t.numxroutes 0

/-- `flush_xroute` (lines 128-154) on the entry `&xroutes[i]`. `none` is the failed
assertion. `realloc_ok` tells whether the shrinking `realloc` succeeds. The slot
left at index `numxroutes` keeps its bytes. -/
def flush_xroute (realloc_ok : Bool) (t : Table) (i : Nat) : Option Table :=
  if i < t.numxroutes then
    let t1 := if i ≠ t.numxroutes - 1 then t.store i (t.get (t.numxroutes - 1)) else t
    let t2 : Table := { t1 with numxroutes := t1.numxroutes - 1 }
    if t2.numxroutes = 0 then
      some { xroutes := none, numxroutes := t2.numxroutes, maxxroutes := 0 }
    else if t2.maxxroutes > 8 ∧ t2.numxroutes < t2.maxxroutes / 4 then
      let n := t2.maxxroutes / 2
      if realloc_ok then
        some { xroutes := t2.xroutes.map (fun xs => xs.take n),
               numxroutes := t2.numxroutes, maxxroutes := n }
      else some t2
    else some t2
  else none

/-- Lines 185-193 of `add_xroute`: fill slot `numxroutes`, count it, return 1. -/
def append_xroute (t : Table) (p : Addr) (plen : Nat) (sp : Addr) (src_plen : Nat)
    (metric ifindex : Nat) (proto : Int) : Table × Int :=
  ({ t.store t.numxroutes
        { pfx := p, plen := plen, src_pfx := sp, src_plen := src_plen,
          metric := metric, ifindex := ifindex, proto := proto } with
      numxroutes := t.numxroutes + 1 }, 1)

/-- `add_xroute` (lines 156-194). `alloc_ok` tells whether `malloc`/`realloc`
succeeds. After a successful allocation of `n` slots, `memset(new_xroutes, 0, n *
sizeof(struct xroute))` overwrites all `n` of them, whatever `malloc` or `realloc`
left there, so the new array is `n` zero slots in both branches of line 172. -/
def add_xroute (alloc_ok : Bool) (t : Table) (p : Addr) (plen : Nat) (sp : Addr)
    (src_plen : Nat) (metric ifindex : Nat) (proto : Int) : Table × Int :=
  match find_xroute t p plen sp src_plen with
  | some i =>
    if (t.get i).metric ≤ metric then (t, 0)
    else (t.store i { t.get i with metric := metric }, 1)
  | none =>
    if t.numxroutes ≥ t.maxxroutes then
      let n := if t.maxxroutes < 1 then 8 else 2 * t.maxxroutes
      if alloc_ok then
        append_xroute
          { xroutes := some (List.replicate n Xroute.zero),
            numxroutes := t.numxroutes, maxxroutes := n }
          p plen sp src_plen metric ifindex proto
      else (t, -1)
    else append_xroute t p plen sp src_plen metric ifindex proto

/-- A candidate for `add_xroute`: its seven arguments. -/
structure Cand where
  pfx : Addr
  plen : Nat
  src_pfx : Addr
  src_plen : Nat
  metric : Nat
  ifindex : Nat
  proto : Int
deriving DecidableEq

/-- The key of a candidate. -/
def Cand.key (c : Cand) : Addr × Nat × Addr × Nat := (c.pfx, c.plen, c.src_pfx, c.src_plen)

/-- The entry lines 185-191 of `add_xroute` write for a candidate. -/
def Cand.toXroute (c : Cand) : Xroute :=
  { pfx := c.pfx, plen := c.plen, src_pfx := c.src_pfx, src_plen := c.src_plen,
    metric := c.metric, ifindex := c.ifindex, proto := c.proto }

/-- One `add_xroute` call on a candidate, keeping the table only. -/
def add_cand (alloc_ok : Bool) (t : Table) (c : Cand) : Table :=
  (add_xroute alloc_ok t c.pfx c.plen c.src_pfx c.src_plen c.metric c.ifindex c.proto).1

/-- A run of `add_xroute` calls, all with the same allocation outcome. -/
def add_all (alloc_ok : Bool) (t : Table) (cs : List Cand) : Table :=
  cs.foldl (add_cand alloc_ok) t

/-- A run of `flush_xroute` calls on the given slot indices, stopping at a failed
assertion. -/
def flush_all (realloc_ok : Bool) : Table → List Nat → Option Table
  | t, [] => some t
  | t, i :: is => (flush_xroute realloc_ok t i).bind (fun t1 => flush_all realloc_ok t1 is)

/-- The states the table can be in: from the initial state, any `add_xroute` call
and any `flush_xroute` call whose assertion holds, with any allocation outcome. -/
inductive Reachable : Table → Prop
  | init : Reachable Table.empty
  | add (alloc_ok : Bool) (t : Table) (p : Addr) (plen : Nat) (sp : Addr) (src_plen : Nat)
      (metric ifindex : Nat) (proto : Int) :
      Reachable t →
      Reachable (add_xroute alloc_ok t p plen sp src_plen metric ifindex proto).1
  | flush (realloc_ok : Bool) (t t1 : Table) (i : Nat) :
      Reachable t → flush_xroute realloc_ok t i = some t1 → Reachable t1

/-- An address whose first octet is `b` and whose other octets are zero. -/
def addr_of_byte (b : Byte) : Addr := ⟨b :: List.replicate 15 0, rfl⟩

/-- The candidate with destination `addr_of_byte b`/`plen`, no source prefix. -/
def cand_of (b : Byte) (plen metric ifindex : Nat) : Cand :=
  { pfx := addr_of_byte b, plen := plen, src_pfx := zeroes, src_plen := 0,
    metric := metric, ifindex := ifindex, proto := 0 }

/-- Nine candidates with pairwise distinct keys (destinations 1.0.. to 9.0..). -/
def nine_cands : List Cand :=
  [cand_of 1 8 10 1, cand_of 2 8 10 1, cand_of 3 8 10 1, cand_of 4 8 10 1, cand_of 5 8 10 1,
   cand_of 6 8 10 1, cand_of 7 8 10 1, cand_of 8 8 10 1, cand_of 9 8 10 1]

/-- A table holding one entry, stored with metric 10, interface 1, protocol 0. -/
def one_entry_table : Table := add_cand true Table.empty (cand_of 1 8 10 1)

/-- A full table: eight entries in eight slots. -/
def full_table : Table := add_all true Table.empty (nine_cands.take 8)

/-- The state after inserting the first three of `nine_cands` and removing slot 0
(no allocation is attempted by that removal). -/
def after_three_adds_one_flush : Table :=
  (flush_xroute false (add_all true Table.empty (nine_cands.take 3)) 0).getD Table.empty

/-- The return codes of a run of `add_xroute` calls, in order. -/
def add_results (alloc_ok : Bool) : Table → List Cand → List Int
  | _, [] => []
  | t, c :: cs =>
    (add_xroute alloc_ok t c.pfx c.plen c.src_pfx c.src_plen c.metric c.ifindex c.proto).2 ::
      add_results alloc_ok (add_cand alloc_ok t c) cs

/-- The candidate for the default route `::/0` with no source prefix, metric 10. -/
def default_cand : Cand :=
  { pfx := zeroes, plen := 0, src_pfx := zeroes, src_plen := 0,
    metric := 10, ifindex := 1, proto := 0 }

/-- Nine candidates with pairwise distinct keys, the first being `default_cand`. -/
def default_then_eight : List Cand := default_cand :: nine_cands.take 8

/-- The four octets of a `struct in_addr`. -/
abbrev In4 := { l : List Byte // l.length = 4 }

/-- A `struct babel_route *` returned by `find_installed_route`, as an identifier. -/
abbrev Route := Nat

/-- The functions and the constant `xroute.c` uses and does not define. None of them
can reach the table, whose three variables are `static`.
`martian_prefix` is the truth value of `martian_prefix(prefix, plen)`;
`redistribute_filter` is the value the call of line 222 leaves in the
`unsigned short metric`; `find_installed_route` is `none` for `NULL`. -/
structure Env where
  martian_prefix : Addr → Nat → Bool
  redistribute_filter : Addr → Nat → Nat → Int → Nat
  INFINITY : Nat
  find_installed_route : Addr → Nat → Addr → Nat → Option Route
  inaddr_to_uchar : In4 → Addr
  in6addr_to_uchar : Addr → Addr

/-- A call that leaves `xroute.c`, with its arguments. -/
inductive Event where
  | find_installed_route (p : Addr) (plen : Nat) (sp : Addr) (src_plen : Nat)
  | uninstall_route (r : Route)
  | send_update (p : Addr) (plen : Nat) (sp : Addr) (src_plen : Nat)
deriving DecidableEq

/-- `xroute_add_new_route` (lines 213-236): the table after the call, the outgoing
calls in order, and the return value. The argument `metric` is overwritten at line
222 before any use. -/
def xroute_add_new_route (env : Env) (alloc_ok : Bool) (t : Table) (p : Addr) (plen : Nat)
    (sp : Addr) (src_plen : Nat) (metric : Nat) (ifindex : Nat) (proto : Int)
    (send_updates : Int) : Table × List Event × Int :=
  if env.martian_prefix p plen then (t, [], 0)
  else
    let metric := env.redistribute_filter p plen ifindex proto
    if metric < env.INFINITY then
      let r := add_xroute alloc_ok t p plen sp src_plen metric ifindex proto
      if r.2 > 0 then
        (r.1,
         [Event.find_installed_route p plen sp src_plen] ++
           (match env.find_installed_route p plen sp src_plen with
            | some route => [Event.uninstall_route route]
            | none => []) ++
           (if send_updates ≠ 0 then [Event.send_update p plen sp src_plen] else []),
         1)
      else (r.1, [], 0)
    else (t, [], 0)

/-- `babel_ipv4_route_add` (lines 46-58); it returns 0. `prefixlen + 96` is passed as
an `unsigned char`, `api->metric` as an `unsigned short`. -/
def babel_ipv4_route_add (env : Env) (alloc_ok : Bool) (t : Table) (api_metric : Nat)
    (pfx4 : In4) (prefixlen : Nat) (ifindex : Nat) : Table × List Event :=
  let r := xroute_add_new_route env alloc_ok t (env.inaddr_to_uchar pfx4)
    ((prefixlen + 96) % 256) zeroes 0 (api_metric % 65536) ifindex 0 1
  (r.1, r.2.1)

/-- `babel_ipv6_route_add` (lines 78-92); it returns 0. -/
def babel_ipv6_route_add (env : Env) (alloc_ok : Bool) (t : Table) (api_metric : Nat)
    (pfx6 : Addr) (prefixlen : Nat) (src6 : Addr) (src_prefixlen : Nat) (ifindex : Nat) :
    Table × List Event :=
  let r := xroute_add_new_route env alloc_ok t (env.in6addr_to_uchar pfx6) prefixlen
    (env.in6addr_to_uchar src6) src_prefixlen (api_metric % 65536) ifindex 0 1
  (r.1, r.2.1)

/-- The lookup and conditional removal both delete functions perform (lines 69-73 and
105-109): `find_xroute`, then `flush_xroute` when the result is not `NULL`. `none` is
the failed assertion of `flush_xroute`. -/
def withdraw (realloc_ok : Bool) (t : Table) (p : Addr) (plen : Nat) (sp : Addr)
    (src_plen : Nat) : Option Table :=
  match find_xroute t p plen sp src_plen with
  | some i => flush_xroute realloc_ok t i
  | none => some t

/-- `babel_ipv4_route_delete` (lines 61-75): the table after the call and the outgoing
calls (there is none in the function); it returns 0. -/
def babel_ipv4_route_delete (env : Env) (realloc_ok : Bool) (t : Table) (pfx4 : In4)
    (prefixlen : Nat) : Option (Table × List Event) :=
  (withdraw realloc_ok t (env.inaddr_to_uchar pfx4) ((prefixlen + 96) % 256) zeroes 0).map
    (fun t1 => (t1, []))

/-- `babel_ipv6_route_delete` (lines 95-111): as for IPv4, on the key given by both
prefixes. -/
def babel_ipv6_route_delete (env : Env) (realloc_ok : Bool) (t : Table) (pfx6 : Addr)
    (prefixlen : Nat) (src6 : Addr) (src_prefixlen : Nat) : Option (Table × List Event) :=
  (withdraw realloc_ok t (env.in6addr_to_uchar pfx6) prefixlen
    (env.in6addr_to_uchar src6) src_prefixlen).map (fun t1 => (t1, []))

/-- `xroutes_estimate` (lines 197-201). -/
def xroutes_estimate (t : Table) : Nat := t.numxroutes

/-- The loop of `for_all_xroutes`, at index `i` with `fuel = n - i` iterations left.
The visitor gets the entry `&xroutes[i]` (its slot index and its content) and the
closure, whose state it returns; it cannot write to the table. -/
def for_all_xroutes_loop {σ : Type} (f : Nat → Xroute → σ → σ) (t : Table) :
    Nat → Nat → σ → σ
  | 0, _, s => s
  | fuel + 1, i, s => for_all_xroutes_loop f t fuel (i + 1) (f i (t.get i) s)

/-- `for_all_xroutes` (lines 203-210), with `n = numxroutes` read once. -/
def for_all_xroutes {σ : Type} (f : Nat → Xroute → σ → σ) (closure : σ) (t : Table) : σ :=
  for_all_xroutes_loop f t t.numxroutes 0 closure

/-- The visitor that appends the slot index and the entry it is given to a list. -/
def record_visit (i : Nat) (x : Xroute) (log : List (Nat × Xroute)) : List (Nat × Xroute) :=
  log ++ [(i, x)]

/-- The IPv4-mapped address `::ffff:a.b.c.d` of four octets. -/
def v4mapped_of (a : In4) : Addr :=
  ⟨[0, 0, 0, 0, 0, 0, 0, 0, 0, 0, 255, 255] ++ a.val, by simp [a.property]⟩

/-- A sample environment: destinations starting with octet 255 are martian, the filter
gives metric 7 except to interface 9, which it refuses; route 42 is installed for the
destination `1.0.0...`; addresses are copied, IPv4 ones into `::ffff:0:0/96`. -/
def sample_env : Env :=
  { martian_prefix := fun p _ => decide (p.val.head? = some 255),
    redistribute_filter := fun _ _ ifindex _ => if ifindex = 9 then 65535 else 7,
    INFINITY := 65535,
    find_installed_route := fun p _ _ _ => if p = addr_of_byte 1 then some 42 else none,
    inaddr_to_uchar := v4mapped_of,
    in6addr_to_uchar := fun a => a }

/-- The IPv4 address 10.0.0.1. -/
def ten_addr : In4 := ⟨[10, 0, 0, 1], rfl⟩

/-- The number of `find_installed_route` calls in a list of outgoing calls. -/
def count_lookups (es : List Event) : Nat :=
  (es.filter (fun e => match e with
    | Event.find_installed_route _ _ _ _ => true
    | _ => false)).length

/-- The number of `uninstall_route` calls in a list of outgoing calls. -/
def count_uninstalls (es : List Event) : Nat :=
  (es.filter (fun e => match e with
    | Event.uninstall_route _ => true
    | _ => false)).length

/-- The number of `send_update` calls in a list of outgoing calls. -/
def count_updates (es : List Event) : Nat :=
  (es.filter (fun e => match e with
    | Event.send_update _ _ _ _ => true
    | _ => false)).length

/-- The capacities the growth policy can produce: 0 and 8, 16, 32, ... -/
def cap_ok (n : Nat) : Prop := n = 0 ∨ ∃ k, n = 8 * 2 ^ k

/-- The counting invariant kept by `add_xroute` and `flush_xroute`. -/
def count_inv (t : Table) : Prop :=
  t.numxroutes ≤ t.maxxroutes ∧ (t.numxroutes = 0 → t.maxxroutes = 0) ∧ cap_ok t.maxxroutes

@[simp] theorem store_numxroutes (t : Table) (i : Nat) (x : Xroute) :
    (t.store i x).numxroutes = t.numxroutes := rfl

@[simp] theorem store_maxxroutes (t : Table) (i : Nat) (x : Xroute) :
    (t.store i x).maxxroutes = t.maxxroutes := rfl

theorem store_slots (t : Table) (i : Nat) (x : Xroute) :
    (t.store i x).slots = t.slots.set i x := by
  cases t with
  | mk xr n m => cases xr <;> simp [Table.store, Table.slots]

theorem key_matches_iff (x : Xroute) (p : Addr) (plen : Nat) (sp : Addr) (src_plen : Nat) :
    key_matches x p plen sp src_plen = true ↔ x.key = (p, plen, sp, src_plen) := by
  simp only [key_matches, memcmp16_eq, Xroute.key, Bool.and_eq_true, beq_iff_eq,
    decide_eq_true_eq, Prod.mk.injEq]
  tauto

/-- What a successful lookup tells: the slot found is in use, it exists, it has the
key, and no earlier slot of the scanned range has the key. -/
theorem find_loop_some {xs : List Xroute} {p : Addr} {plen : Nat} {sp : Addr} {src_plen : Nat} :
    ∀ {fuel i j : Nat}, find_xroute_loop xs p plen sp src_plen fuel i = some j →
      i ≤ j ∧ j < i + fuel ∧
      (∃ x, xs[j]? = some x ∧ x.key = (p, plen, sp, src_plen)) ∧
      ∀ k, i ≤ k → k < j → ∃ y, xs[k]? = some y ∧ y.key ≠ (p, plen, sp, src_plen) := by
  intro fuel
  induction fuel with
  | zero => intro i j h; simp [find_xroute_loop] at h
  | succ fuel ih =>
    intro i j h
    simp only [find_xroute_loop] at h
    cases hx : xs[i]? with
    | none => simp [hx] at h
    | some x =>
      simp only [hx] at h
      by_cases hk : key_matches x p plen sp src_plen = true
      · simp only [hk, if_true, Option.some.injEq] at h
        subst h
        refine ⟨le_refl _, by omega, ⟨x, hx, (key_matches_iff _ _ _ _ _).1 hk⟩, ?_⟩
        intro k h1 h2; omega
      · simp only [hk] at h
        obtain ⟨h1, h2, h3, h4⟩ := ih h
        refine ⟨by omega, by omega, h3, ?_⟩
        intro k hk1 hk2
        by_cases hki : k = i
        · subst hki
          exact ⟨x, hx, fun hkey => hk ((key_matches_iff _ _ _ _ _).2 hkey)⟩
        · exact h4 k (by omega) hk2

/-- A lookup that scans existing slots misses exactly when no scanned slot has the key. -/
theorem find_loop_none {xs : List Xroute} {p : Addr} {plen : Nat} {sp : Addr} {src_plen : Nat} :
    ∀ {fuel i : Nat}, i + fuel ≤ xs.length →
      (find_xroute_loop xs p plen sp src_plen fuel i = none ↔
        ∀ k, i ≤ k → k < i + fuel → ∀ y, xs[k]? = some y → y.key ≠ (p, plen, sp, src_plen)) := by
  intro fuel
  induction fuel with
  | zero =>
    intro i _
    simp only [find_xroute_loop, true_iff]
    intro k h1 h2; omega
  | succ fuel ih =>
    intro i hlen
    have hi : i < xs.length := by omega
    simp only [find_xroute_loop, List.getElem?_eq_getElem hi]
    by_cases hk : key_matches xs[i] p plen sp src_plen = true
    · simp only [hk, if_true]
      constructor
      · intro h; cases h
      · intro h
        exact absurd ((key_matches_iff _ _ _ _ _).1 hk)
          (h i (le_refl _) (by omega) _ (List.getElem?_eq_getElem hi))
    · simp only [hk, Bool.false_eq_true, if_false]
      rw [ih (i := i + 1) (by omega)]
      constructor
      · intro h k h1 h2 y hy
        by_cases hki : k = i
        · subst hki
          rw [List.getElem?_eq_getElem hi] at hy
          cases hy
          exact fun hkey => hk ((key_matches_iff _ _ _ _ _).2 hkey)
        · exact h k (by omega) (by omega) y hy
      · intro h k h1 h2 y hy
        exact h k (by omega) (by omega) y hy

/-- The lookup reads only the keys of the scanned slots. -/
theorem find_loop_congr {xs ys : List Xroute} {p : Addr} {plen : Nat} {sp : Addr}
    {src_plen : Nat} :
    ∀ {fuel i : Nat},
      (∀ k, i ≤ k → k < i + fuel → (xs[k]?).map Xroute.key = (ys[k]?).map Xroute.key) →
      find_xroute_loop xs p plen sp src_plen fuel i =
        find_xroute_loop ys p plen sp src_plen fuel i := by
  intro fuel
  induction fuel with
  | zero => intro i _; rfl
  | succ fuel ih =>
    intro i h
    have h0 := h i (le_refl _) (by omega)
    have hrec := ih (i := i + 1) (fun k h1 h2 => h k (by omega) (by omega))
    simp only [find_xroute_loop]
    cases hx : xs[i]? with
    | none =>
      cases hy : ys[i]? with
      | none => rfl
      | some y => simp [hx, hy] at h0
    | some x =>
      cases hy : ys[i]? with
      | none => simp [hx, hy] at h0
      | some y =>
        simp only [hx, hy, Option.map_some', Option.some.injEq] at h0
        have hkm : key_matches x p plen sp src_plen = key_matches y p plen sp src_plen := by
          rw [Bool.eq_iff_iff, key_matches_iff, key_matches_iff, h0]
        simp only [hkm, hrec]

theorem find_xroute_some {t : Table} {p : Addr} {plen : Nat} {sp : Addr} {src_plen i : Nat}
    (h : find_xroute t p plen sp src_plen = some i) :
    i < t.numxroutes ∧ ∃ x, t.slots[i]? = some x ∧ x.key = (p, plen, sp, src_plen) := by
  obtain ⟨_, h2, h3, _⟩ := find_loop_some h
  exact ⟨by omega, h3⟩

theorem get_of_slot {t : Table} {i : Nat} {x : Xroute} (h : t.slots[i]? = some x) :
    t.get i = x := by
  simp [Table.get, List.getD, h]

theorem slot_lt_length {t : Table} {i : Nat} {x : Xroute} (h : t.slots[i]? = some x) :
    i < t.slots.length := by
  by_contra hc
  rw [List.getElem?_eq_none (by omega)] at h
  cases h

theorem get_store_self {t : Table} {i : Nat} {x : Xroute} (y : Xroute)
    (h : t.slots[i]? = some x) : (t.store i y).get i = y := by
  have hlt := slot_lt_length h
  simp [Table.get, List.getD, store_slots, List.getElem?_set, hlt]

/-- Overwriting the metric of a slot does not change what a lookup returns. -/
theorem find_xroute_store_metric (t : Table) (i m : Nat) (p : Addr) (plen : Nat) (sp : Addr)
    (src_plen : Nat) :
    find_xroute (t.store i { t.get i with metric := m }) p plen sp src_plen =
      find_xroute t p plen sp src_plen := by
  unfold find_xroute
  rw [store_slots, store_numxroutes]
  apply find_loop_congr
  intro k _ _
  rw [List.getElem?_set]
  by_cases hik : i = k
  · subst hik
    by_cases hlt : i < t.slots.length
    · simp [hlt, Table.get, List.getD, List.getElem?_eq_getElem hlt, Xroute.key]
    · simp [hlt, List.getElem?_eq_none (Nat.le_of_not_lt hlt)]
  · simp [hik]

/-- C2. Monotonic improvement, single step: when the lookup of key K finds slot `i`
holding metric `m0`, `add_xroute` on K with metric `m` returns 1 exactly when
`m < m0`; then K is still found at slot `i`, now with metric `m`; otherwise it returns
0 and the table (backing array, population, capacity) is the table before the call. -/
theorem add_xroute_monotonic_step (alloc_ok : Bool) (t : Table) (p : Addr) (plen : Nat)
    (sp : Addr) (src_plen m ifindex : Nat) (proto : Int) (i m0 : Nat)
    (hfind : find_xroute t p plen sp src_plen = some i)
    (hm0 : (t.get i).metric = m0) :
    ((add_xroute alloc_ok t p plen sp src_plen m ifindex proto).2 = 1 ↔ m < m0) ∧
    (m < m0 →
      find_xroute (add_xroute alloc_ok t p plen sp src_plen m ifindex proto).1
          p plen sp src_plen = some i ∧
      ((add_xroute alloc_ok t p plen sp src_plen m ifindex proto).1.get i).metric = m) ∧
    (¬ m < m0 →
      (add_xroute alloc_ok t p plen sp src_plen m ifindex proto).2 = 0 ∧
      (add_xroute alloc_ok t p plen sp src_plen m ifindex proto).1 = t) := by
  obtain ⟨_, x, hx, _⟩ := find_xroute_some hfind
  subst hm0
  by_cases hlt : m < (t.get i).metric
  · have hle : ¬ (t.get i).metric ≤ m := by omega
    simp only [add_xroute, hfind, hle, if_false, hlt, true_implies, iff_true, not_true_eq_false,
      false_implies, and_true, true_and]
    rw [find_xroute_store_metric, get_store_self _ hx]
    exact ⟨hfind, rfl⟩
  · have hle : (t.get i).metric ≤ m := by omega
    simp [add_xroute, hfind, hle, hlt]

/-- Witness for C2: on the one-entry table, metric 5 for the stored key. -/
theorem add_xroute_monotonic_step_witness :
    ((add_xroute true one_entry_table (addr_of_byte 1) 8 zeroes 0 5 1 0).2 = 1 ↔ 5 < 10) ∧
    (5 < 10 →
      find_xroute (add_xroute true one_entry_table (addr_of_byte 1) 8 zeroes 0 5 1 0).1
          (addr_of_byte 1) 8 zeroes 0 = some 0 ∧
      ((add_xroute true one_entry_table (addr_of_byte 1) 8 zeroes 0 5 1 0).1.get 0).metric = 5) ∧
    (¬ 5 < 10 →
      (add_xroute true one_entry_table (addr_of_byte 1) 8 zeroes 0 5 1 0).2 = 0 ∧
      (add_xroute true one_entry_table (addr_of_byte 1) 8 zeroes 0 5 1 0).1 = one_entry_table) :=
  add_xroute_monotonic_step true one_entry_table (addr_of_byte 1) 8 zeroes 0 5 1 0 0 10
    (by decide) (by decide)

/-- C4. Atomicity of a failed upsert: `add_xroute` returns -1 exactly when the key is
not found, `numxroutes >= maxxroutes` and the allocation fails; and whenever it returns
-1 the table after the call is the table before the call. -/
theorem add_xroute_failed_atomic (alloc_ok : Bool) (t : Table) (p : Addr) (plen : Nat)
    (sp : Addr) (src_plen m ifindex : Nat) (proto : Int) :
    ((add_xroute alloc_ok t p plen sp src_plen m ifindex proto).2 = -1 ↔
      find_xroute t p plen sp src_plen = none ∧ t.maxxroutes ≤ t.numxroutes ∧
        alloc_ok = false) ∧
    ((add_xroute alloc_ok t p plen sp src_plen m ifindex proto).2 = -1 →
      (add_xroute alloc_ok t p plen sp src_plen m ifindex proto).1 = t) := by
  unfold add_xroute
  cases hfind : find_xroute t p plen sp src_plen with
  | some i =>
    by_cases hle : (t.get i).metric ≤ m <;> simp [hle]
  | none =>
    by_cases hcap : t.numxroutes ≥ t.maxxroutes
    · cases alloc_ok
      · simp [hcap]
      · simp [hcap, append_xroute]
    · have : ¬ t.maxxroutes ≤ t.numxroutes := hcap
      simp [hcap, append_xroute, this]

/-- Witness for C4: a ninth key on the full table, the allocation failing. -/
theorem add_xroute_failed_atomic_witness :
    ((add_xroute false full_table (addr_of_byte 9) 8 zeroes 0 10 1 0).2 = -1 ↔
      find_xroute full_table (addr_of_byte 9) 8 zeroes 0 = none ∧
        full_table.maxxroutes ≤ full_table.numxroutes ∧ false = false) ∧
    ((add_xroute false full_table (addr_of_byte 9) 8 zeroes 0 10 1 0).2 = -1 →
      (add_xroute false full_table (addr_of_byte 9) 8 zeroes 0 10 1 0).1 = full_table) ∧
    (add_xroute false full_table (addr_of_byte 9) 8 zeroes 0 10 1 0).2 = -1 :=
  ⟨(add_xroute_failed_atomic false full_table (addr_of_byte 9) 8 zeroes 0 10 1 0).1,
   (add_xroute_failed_atomic false full_table (addr_of_byte 9) 8 zeroes 0 10 1 0).2,
   by decide⟩

/-- The in-place update of lines 165-166 writes the metric field and nothing else. -/
theorem add_xroute_update_fields (alloc_ok : Bool) (t : Table) (p : Addr) (plen : Nat)
    (sp : Addr) (src_plen m ifindex : Nat) (proto : Int) (i : Nat)
    (hfind : find_xroute t p plen sp src_plen = some i)
    (hlt : m < (t.get i).metric) :
    (add_xroute alloc_ok t p plen sp src_plen m ifindex proto).1.get i =
      { t.get i with metric := m } := by
  obtain ⟨_, x, hx, _⟩ := find_xroute_some hfind
  have hle : ¬ (t.get i).metric ≤ m := by omega
  simp only [add_xroute, hfind, hle, if_false]
  exact get_store_self _ hx

/-- C8, as stated, fails: on the one-entry table (metric 10, interface 1, protocol 0) a
better candidate for the stored key with interface 2 and protocol 3 does not leave an
entry with that interface and protocol. -/
theorem add_xroute_update_overwrites_all_counterexample :
    ¬ ∀ (alloc_ok : Bool) (t : Table) (p : Addr) (plen : Nat) (sp : Addr)
        (src_plen m ifindex : Nat) (proto : Int) (i : Nat),
        find_xroute t p plen sp src_plen = some i → m < (t.get i).metric →
        ((add_xroute alloc_ok t p plen sp src_plen m ifindex proto).1.get i).metric = m ∧
        ((add_xroute alloc_ok t p plen sp src_plen m ifindex proto).1.get i).ifindex = ifindex ∧
        ((add_xroute alloc_ok t p plen sp src_plen m ifindex proto).1.get i).proto = proto := by
  intro h
  have h1 := h true one_entry_table (addr_of_byte 1) 8 zeroes 0 5 2 3 0 (by decide) (by decide)
  revert h1
  decide

/-- C8, amended. When the lookup of key K finds slot `i` with a metric above the
candidate's `m`, after `add_xroute` K is still found at slot `i`, its entry has metric
`m`, and its key, interface index and protocol are those stored before the call: the
candidate's interface index and protocol are not written. -/
theorem add_xroute_update_metric_only (alloc_ok : Bool) (t : Table) (p : Addr) (plen : Nat)
    (sp : Addr) (src_plen m ifindex : Nat) (proto : Int) (i : Nat)
    (hfind : find_xroute t p plen sp src_plen = some i)
    (hlt : m < (t.get i).metric) :
    find_xroute (add_xroute alloc_ok t p plen sp src_plen m ifindex proto).1
        p plen sp src_plen = some i ∧
    ((add_xroute alloc_ok t p plen sp src_plen m ifindex proto).1.get i).metric = m ∧
    ((add_xroute alloc_ok t p plen sp src_plen m ifindex proto).1.get i).ifindex =
      (t.get i).ifindex ∧
    ((add_xroute alloc_ok t p plen sp src_plen m ifindex proto).1.get i).proto =
      (t.get i).proto ∧
    ((add_xroute alloc_ok t p plen sp src_plen m ifindex proto).1.get i).key =
      (p, plen, sp, src_plen) := by
  obtain ⟨_, x, hx, hkey⟩ := find_xroute_some hfind
  have hget := add_xroute_update_fields alloc_ok t p plen sp src_plen m ifindex proto i hfind hlt
  have hle : ¬ (t.get i).metric ≤ m := by omega
  refine ⟨?_, ?_, ?_, ?_, ?_⟩
  · simp only [add_xroute, hfind, hle, if_false]
    rw [find_xroute_store_metric]
    exact hfind
  · rw [hget]
  · rw [hget]
  · rw [hget]
  · rw [hget, get_of_slot hx]
    simpa [Xroute.key] using hkey

/-- Witness for C8 amended: the one-entry table and a better candidate from
interface 2, protocol 3. -/
theorem add_xroute_update_metric_only_witness :
    find_xroute (add_xroute true one_entry_table (addr_of_byte 1) 8 zeroes 0 5 2 3).1
        (addr_of_byte 1) 8 zeroes 0 = some 0 ∧
    ((add_xroute true one_entry_table (addr_of_byte 1) 8 zeroes 0 5 2 3).1.get 0).metric = 5 ∧
    ((add_xroute true one_entry_table (addr_of_byte 1) 8 zeroes 0 5 2 3).1.get 0).ifindex =
      (one_entry_table.get 0).ifindex ∧
    ((add_xroute true one_entry_table (addr_of_byte 1) 8 zeroes 0 5 2 3).1.get 0).proto =
      (one_entry_table.get 0).proto ∧
    ((add_xroute true one_entry_table (addr_of_byte 1) 8 zeroes 0 5 2 3).1.get 0).key =
      (addr_of_byte 1, 8, zeroes, 0) :=
  add_xroute_update_metric_only true one_entry_table (addr_of_byte 1) 8 zeroes 0 5 2 3 0
    (by decide) (by decide)

theorem cap_ok_pos {n : Nat} (h : cap_ok n) (hn : n ≠ 0) : 8 ≤ n := by
  rcases h with h | ⟨k, hk⟩
  · exact absurd h hn
  · have : 1 ≤ 2 ^ k := Nat.one_le_two_pow
    omega

theorem cap_ok_double {n : Nat} (h : cap_ok n) (hn : n ≠ 0) : cap_ok (2 * n) := by
  rcases h with h | ⟨k, hk⟩
  · exact absurd h hn
  · exact Or.inr ⟨k + 1, by rw [hk, pow_succ]; omega⟩

theorem cap_ok_half {n : Nat} (h : cap_ok n) (hn : 8 < n) : cap_ok (n / 2) ∧ 8 ≤ n / 2 := by
  rcases h with h | ⟨k, hk⟩
  · omega
  · cases k with
    | zero => simp at hk; omega
    | succ k =>
      have h1 : 1 ≤ 2 ^ k := Nat.one_le_two_pow
      have h2 : n / 2 = 8 * 2 ^ k := by rw [hk, pow_succ]; omega
      exact ⟨Or.inr ⟨k, h2⟩, by omega⟩

/-- The counters after `add_xroute`, by cases on the lookup, the room left and the
allocation outcome. -/
theorem add_xroute_counts (alloc_ok : Bool) (t : Table) (p : Addr) (plen : Nat)
    (sp : Addr) (src_plen m ifindex : Nat) (proto : Int) :
    ((add_xroute alloc_ok t p plen sp src_plen m ifindex proto).1.numxroutes,
     (add_xroute alloc_ok t p plen sp src_plen m ifindex proto).1.maxxroutes) =
    if (find_xroute t p plen sp src_plen).isSome then (t.numxroutes, t.maxxroutes)
    else if t.numxroutes < t.maxxroutes then (t.numxroutes + 1, t.maxxroutes)
    else if alloc_ok = false then (t.numxroutes, t.maxxroutes)
    else (t.numxroutes + 1, if t.maxxroutes = 0 then 8 else 2 * t.maxxroutes) := by
  unfold add_xroute
  cases hfind : find_xroute t p plen sp src_plen with
  | some i =>
    by_cases hle : (t.get i).metric ≤ m <;> simp [hle]
  | none =>
    by_cases hcap : t.numxroutes < t.maxxroutes
    · have : ¬ t.numxroutes ≥ t.maxxroutes := by omega
      simp [hcap, this, append_xroute]
    · have : t.numxroutes ≥ t.maxxroutes := by omega
      cases alloc_ok
      · simp [hcap, this]
      · simp [hcap, this, append_xroute, Nat.lt_one_iff]

/-- The result of `flush_xroute` on a slot in use, in closed form. -/
theorem flush_xroute_eq (realloc_ok : Bool) (t : Table) (i : Nat) (hi : i < t.numxroutes) :
    flush_xroute realloc_ok t i = some
      { xroutes :=
          if t.numxroutes - 1 = 0 then none
          else if 8 < t.maxxroutes ∧ t.numxroutes - 1 < t.maxxroutes / 4 ∧ realloc_ok = true then
            (if i ≠ t.numxroutes - 1 then t.store i (t.get (t.numxroutes - 1)) else t).xroutes.map
              (fun xs => xs.take (t.maxxroutes / 2))
          else (if i ≠ t.numxroutes - 1 then t.store i (t.get (t.numxroutes - 1)) else t).xroutes,
        numxroutes := t.numxroutes - 1,
        maxxroutes :=
          if t.numxroutes - 1 = 0 then 0
          else if 8 < t.maxxroutes ∧ t.numxroutes - 1 < t.maxxroutes / 4 ∧ realloc_ok = true then
            t.maxxroutes / 2
          else t.maxxroutes } := by
  have hn1 : (if i ≠ t.numxroutes - 1 then t.store i (t.get (t.numxroutes - 1)) else t).numxroutes
      = t.numxroutes := by split <;> rfl
  have hm1 : (if i ≠ t.numxroutes - 1 then t.store i (t.get (t.numxroutes - 1)) else t).maxxroutes
      = t.maxxroutes := by split <;> rfl
  unfold flush_xroute
  rw [if_pos hi]
  simp only [hn1, hm1]
  by_cases h0 : t.numxroutes - 1 = 0
  · simp only [h0, if_true]
  · simp only [h0, if_false]
    by_cases hshrink : 8 < t.maxxroutes ∧ t.numxroutes - 1 < t.maxxroutes / 4
    · cases realloc_ok
      · simp [hshrink]
      · simp [hshrink]
    · have hs2 : ¬ (8 < t.maxxroutes ∧ t.numxroutes - 1 < t.maxxroutes / 4 ∧ realloc_ok = true) :=
        fun hc => hshrink ⟨hc.1, hc.2.1⟩
      have hs3 : ¬ (t.maxxroutes > 8 ∧ t.numxroutes - 1 < t.maxxroutes / 4) := hshrink
      rw [if_neg hs3, if_neg hs2, if_neg hs2]

/-- The counters after `flush_xroute` on a slot in use. -/
theorem flush_xroute_counts (realloc_ok : Bool) (t : Table) (i : Nat)
    (hi : i < t.numxroutes) :
    ∃ t1, flush_xroute realloc_ok t i = some t1 ∧
      t1.numxroutes = t.numxroutes - 1 ∧
      t1.maxxroutes =
        if t.numxroutes - 1 = 0 then 0
        else if 8 < t.maxxroutes ∧ t.numxroutes - 1 < t.maxxroutes / 4 ∧ realloc_ok = true then
          t.maxxroutes / 2
        else t.maxxroutes :=
  ⟨_, flush_xroute_eq realloc_ok t i hi, rfl, rfl⟩

theorem flush_xroute_some_lt {realloc_ok : Bool} {t t1 : Table} {i : Nat}
    (h : flush_xroute realloc_ok t i = some t1) : i < t.numxroutes := by
  by_contra hc
  simp [flush_xroute, hc] at h

theorem count_inv_add (alloc_ok : Bool) (t : Table) (p : Addr) (plen : Nat)
    (sp : Addr) (src_plen m ifindex : Nat) (proto : Int) (h : count_inv t) :
    count_inv (add_xroute alloc_ok t p plen sp src_plen m ifindex proto).1 := by
  have hc := add_xroute_counts alloc_ok t p plen sp src_plen m ifindex proto
  obtain ⟨h1, h2, h3⟩ := h
  unfold count_inv
  split at hc
  · simp only [Prod.mk.injEq] at hc
    rw [hc.1, hc.2]; exact ⟨h1, h2, h3⟩
  · split at hc
    · simp only [Prod.mk.injEq] at hc
      rw [hc.1, hc.2]; exact ⟨by omega, by omega, h3⟩
    · split at hc
      · simp only [Prod.mk.injEq] at hc
        rw [hc.1, hc.2]; exact ⟨h1, h2, h3⟩
      · simp only [Prod.mk.injEq] at hc
        rw [hc.1, hc.2]
        by_cases hz : t.maxxroutes = 0
        · simp only [hz, if_true]
          exact ⟨by omega, by omega, Or.inr ⟨0, by simp⟩⟩
        · simp only [hz, if_false]
          exact ⟨by omega, by omega, cap_ok_double h3 hz⟩

theorem count_inv_flush (realloc_ok : Bool) (t t1 : Table) (i : Nat) (h : count_inv t)
    (hf : flush_xroute realloc_ok t i = some t1) : count_inv t1 := by
  have hi := flush_xroute_some_lt hf
  obtain ⟨t2, h2, hn, hm⟩ := flush_xroute_counts realloc_ok t i hi
  rw [hf] at h2
  cases h2
  obtain ⟨h1, _, h3⟩ := h
  unfold count_inv
  rw [hn, hm]
  by_cases h0 : t.numxroutes - 1 = 0
  · rw [if_pos h0]
    exact ⟨by omega, fun _ => rfl, Or.inl rfl⟩
  · rw [if_neg h0]
    by_cases hs : 8 < t.maxxroutes ∧ t.numxroutes - 1 < t.maxxroutes / 4 ∧ realloc_ok = true
    · rw [if_pos hs]
      exact ⟨by omega, fun h => absurd h h0, (cap_ok_half h3 hs.1).1⟩
    · rw [if_neg hs]
      exact ⟨by omega, fun h => absurd h h0, h3⟩

theorem reachable_count_inv {t : Table} (h : Reachable t) : count_inv t := by
  induction h with
  | init => exact ⟨le_refl _, fun _ => rfl, Or.inl rfl⟩
  | add alloc_ok t p plen sp src_plen metric ifindex proto _ ih =>
    exact count_inv_add alloc_ok t p plen sp src_plen metric ifindex proto ih
  | flush realloc_ok t t1 i _ hf ih => exact count_inv_flush realloc_ok t t1 i ih hf

/-- C5. Population/capacity invariant: in every state reachable from the empty table by
`add_xroute` calls and `flush_xroute` calls on slots in use, with any allocation
failing or succeeding, `numxroutes <= maxxroutes`, `maxxroutes = 0` exactly when
`numxroutes = 0`, and `maxxroutes >= 8` whenever `numxroutes > 0`. -/
theorem reachable_population_capacity (t : Table) (h : Reachable t) :
    t.numxroutes ≤ t.maxxroutes ∧ (t.maxxroutes = 0 ↔ t.numxroutes = 0) ∧
      (0 < t.numxroutes → 8 ≤ t.maxxroutes) := by
  obtain ⟨h1, h2, h3⟩ := reachable_count_inv h
  refine ⟨h1, ⟨fun h => by omega, h2⟩, fun hpos => cap_ok_pos h3 (by omega)⟩

theorem after_three_adds_one_flush_reachable : Reachable after_three_adds_one_flush := by
  have h0 := Reachable.init
  have h1 := Reachable.add true _ (addr_of_byte 1) 8 zeroes 0 10 1 0 h0
  have h2 := Reachable.add true _ (addr_of_byte 2) 8 zeroes 0 10 1 0 h1
  have h3 := Reachable.add true _ (addr_of_byte 3) 8 zeroes 0 10 1 0 h2
  exact Reachable.flush false _ _ 0 h3 (by decide)

/-- Witness for C5: the state after three inserts and the removal of slot 0. -/
theorem reachable_population_capacity_witness :
    Reachable after_three_adds_one_flush ∧
    after_three_adds_one_flush.numxroutes ≤ after_three_adds_one_flush.maxxroutes ∧
      (after_three_adds_one_flush.maxxroutes = 0 ↔ after_three_adds_one_flush.numxroutes = 0) ∧
      (0 < after_three_adds_one_flush.numxroutes → 8 ≤ after_three_adds_one_flush.maxxroutes) :=
  ⟨after_three_adds_one_flush_reachable,
   reachable_population_capacity after_three_adds_one_flush after_three_adds_one_flush_reachable⟩

/-- One removal with a succeeding shrink, on counters known to be `n` and `c`. -/
theorem flush_step (t : Table) (i n c : Nat) (hn : t.numxroutes = n) (hc : t.maxxroutes = c)
    (hi : i < n) :
    ∃ t1, flush_xroute true t i = some t1 ∧ t1.numxroutes = n - 1 ∧
      t1.maxxroutes = if n - 1 = 0 then 0 else if 8 < c ∧ n - 1 < c / 4 then c / 2 else c := by
  subst hn hc
  obtain ⟨t1, h1, h2, h3⟩ := flush_xroute_counts true t i hi
  refine ⟨t1, h1, h2, ?_⟩
  rw [h3]
  simp

/-- C10. Shrink policy: with the reallocation succeeding, `flush_xroute` on a slot in
use returns, decrements the population, and sets the capacity to 0 when the population
after the removal is 0, otherwise to `maxxroutes / 2` when `maxxroutes > 8` and the
population after the removal is below `maxxroutes / 4`, otherwise leaves it unchanged.
Consequently, from any table with population 9 and capacity 16, seven removals of slots
in use end with population 2 and capacity 8. -/
theorem flush_xroute_shrink_policy :
    (∀ (t : Table) (i : Nat), i < t.numxroutes →
      ∃ t1, flush_xroute true t i = some t1 ∧ t1.numxroutes = t.numxroutes - 1 ∧
        (t1.numxroutes = 0 → t1.maxxroutes = 0) ∧
        (t1.numxroutes ≠ 0 → 8 < t.maxxroutes → t1.numxroutes < t.maxxroutes / 4 →
          t1.maxxroutes = t.maxxroutes / 2) ∧
        (t1.numxroutes ≠ 0 → ¬ (8 < t.maxxroutes ∧ t1.numxroutes < t.maxxroutes / 4) →
          t1.maxxroutes = t.maxxroutes)) ∧
    (∀ (t : Table) (is : List Nat), t.numxroutes = 9 → t.maxxroutes = 16 → is.length = 7 →
      (∀ k (h : k < is.length), is[k] < 9 - k) →
      ∃ t1, flush_all true t is = some t1 ∧ t1.numxroutes = 2 ∧ t1.maxxroutes = 8) := by
  constructor
  · intro t i hi
    obtain ⟨t1, h1, h2, h3⟩ := flush_xroute_counts true t i hi
    refine ⟨t1, h1, h2, ?_, ?_, ?_⟩
    · intro h0
      rw [h2] at h0
      rw [h3, if_pos h0]
    · intro h0 h8 h4
      rw [h2] at h0 h4
      rw [h3, if_neg h0, if_pos ⟨h8, h4, rfl⟩]
    · intro h0 hno
      rw [h2] at h0 hno
      rw [h3, if_neg h0, if_neg (fun hc => hno ⟨hc.1, hc.2.1⟩)]
  · intro t is hn hc hlen hidx
    match is, hlen, hidx with
    | [i1, i2, i3, i4, i5, i6, i7], _, hidx =>
      have b1 := hidx 0 (by simp)
      have b2 := hidx 1 (by simp)
      have b3 := hidx 2 (by simp)
      have b4 := hidx 3 (by simp)
      have b5 := hidx 4 (by simp)
      have b6 := hidx 5 (by simp)
      have b7 := hidx 6 (by simp)
      simp only [List.getElem_cons_zero, List.getElem_cons_succ] at b1 b2 b3 b4 b5 b6 b7
      obtain ⟨t1, e1, n1, c1⟩ := flush_step t i1 9 16 hn hc (by omega)
      obtain ⟨t2, e2, n2, c2⟩ := flush_step t1 i2 8 16 n1 (by simpa using c1) (by omega)
      obtain ⟨t3, e3, n3, c3⟩ := flush_step t2 i3 7 16 n2 (by simpa using c2) (by omega)
      obtain ⟨t4, e4, n4, c4⟩ := flush_step t3 i4 6 16 n3 (by simpa using c3) (by omega)
      obtain ⟨t5, e5, n5, c5⟩ := flush_step t4 i5 5 16 n4 (by simpa using c4) (by omega)
      obtain ⟨t6, e6, n6, c6⟩ := flush_step t5 i6 4 16 n5 (by simpa using c5) (by omega)
      obtain ⟨t7, e7, n7, c7⟩ := flush_step t6 i7 3 8 n6 (by simpa using c6) (by omega)
      refine ⟨t7, ?_, n7, by simpa using c7⟩
      simp [flush_all, e1, e2, e3, e4, e5, e6, e7]

/-- Witness for C10: slot 2 of the nine-entry table, and the removals
8, 0, 3, 2, 1, 0, 2 from it. -/
theorem flush_xroute_shrink_policy_witness :
    (∃ t1, flush_xroute true (add_all true Table.empty nine_cands) 2 = some t1 ∧
        t1.numxroutes = (add_all true Table.empty nine_cands).numxroutes - 1 ∧
        (t1.numxroutes = 0 → t1.maxxroutes = 0) ∧
        (t1.numxroutes ≠ 0 → 8 < (add_all true Table.empty nine_cands).maxxroutes →
          t1.numxroutes < (add_all true Table.empty nine_cands).maxxroutes / 4 →
          t1.maxxroutes = (add_all true Table.empty nine_cands).maxxroutes / 2) ∧
        (t1.numxroutes ≠ 0 →
          ¬ (8 < (add_all true Table.empty nine_cands).maxxroutes ∧
              t1.numxroutes < (add_all true Table.empty nine_cands).maxxroutes / 4) →
          t1.maxxroutes = (add_all true Table.empty nine_cands).maxxroutes)) ∧
    (∃ t1, flush_all true (add_all true Table.empty nine_cands) [8, 0, 3, 2, 1, 0, 2] = some t1 ∧
      t1.numxroutes = 2 ∧ t1.maxxroutes = 8) :=
  ⟨flush_xroute_shrink_policy.1 (add_all true Table.empty nine_cands) 2 (by decide),
   flush_xroute_shrink_policy.2 (add_all true Table.empty nine_cands) [8, 0, 3, 2, 1, 0, 2]
     (by decide) (by decide) (by decide) (by decide)⟩

theorem wf_slots {t : Table} (h : t.wf) :
    t.slots.length = t.maxxroutes ∧ t.numxroutes ≤ t.maxxroutes := by
  cases t with
  | mk xr n m =>
    cases xr with
    | none =>
      simp only [Table.wf] at h
      simp [Table.slots, h.1, h.2]
    | some xs =>
      simp only [Table.wf] at h
      simpa [Table.slots] using h

theorem entries_length {t : Table} (h : t.wf) : t.entries.length = t.numxroutes := by
  have := wf_slots h
  simp only [Table.entries, List.length_take]
  omega

/-- Under memory safety, a lookup misses exactly when no stored entry has the key. -/
theorem find_xroute_none_iff {t : Table} (hwf : t.wf) (p : Addr) (plen : Nat) (sp : Addr)
    (src_plen : Nat) :
    find_xroute t p plen sp src_plen = none ↔
      ∀ y ∈ t.entries, y.key ≠ (p, plen, sp, src_plen) := by
  have hs := wf_slots hwf
  unfold find_xroute
  rw [find_loop_none (by omega)]
  constructor
  · intro h y hy
    obtain ⟨k, hk, hky⟩ := List.getElem_of_mem hy
    have hlen : k < t.numxroutes := by
      simp only [Table.entries, List.length_take] at hk
      omega
    apply h k (Nat.zero_le _) (by omega) y
    simp only [Table.entries, List.getElem_take] at hky
    rw [← hky]
    exact List.getElem?_eq_getElem _
  · intro h k _ hk y hy
    apply h y
    have hk2 : k < t.slots.length := by omega
    rw [List.getElem?_eq_getElem hk2] at hy
    cases hy
    simp only [Table.entries]
    rw [List.mem_take_iff_getElem]
    exact ⟨k, by omega, rfl⟩

theorem take_succ_set {α : Type} (l : List α) (n : Nat) (a : α) (h : n < l.length) :
    (l.set n a).take (n + 1) = l.take n ++ [a] := by
  induction l generalizing n with
  | nil => simp at h
  | cons b l ih =>
    cases n with
    | zero => simp
    | succ n =>
      simp only [List.length_cons, Nat.add_lt_add_iff_right] at h
      simp [ih n h]

theorem append_xroute_slots (t : Table) (p : Addr) (plen : Nat) (sp : Addr) (src_plen : Nat)
    (m ifindex : Nat) (proto : Int) :
    (append_xroute t p plen sp src_plen m ifindex proto).1.slots =
      t.slots.set t.numxroutes
        { pfx := p, plen := plen, src_pfx := sp, src_plen := src_plen,
          metric := m, ifindex := ifindex, proto := proto } := by
  cases t with
  | mk xr n mx => cases xr <;> simp [append_xroute, Table.store, Table.slots]

/-- What `add_xroute` does for a key that is not stored, the allocation (if any)
succeeding: it returns 1 and appends the candidate, after the stored entries when there
was room, after `numxroutes` zeroed slots when the array was reallocated. -/
theorem add_xroute_absent {t : Table} (hwf : t.wf) (c : Cand)
    (hfind : find_xroute t c.pfx c.plen c.src_pfx c.src_plen = none) :
    (add_xroute true t c.pfx c.plen c.src_pfx c.src_plen c.metric c.ifindex c.proto).2 = 1 ∧
    (add_cand true t c).wf ∧
    (add_cand true t c).numxroutes = t.numxroutes + 1 ∧
    (add_cand true t c).maxxroutes =
      (if t.numxroutes < t.maxxroutes then t.maxxroutes
       else if t.maxxroutes = 0 then 8 else 2 * t.maxxroutes) ∧
    (add_cand true t c).entries =
      (if t.numxroutes < t.maxxroutes then t.entries
       else List.replicate t.numxroutes Xroute.zero) ++ [c.toXroute] := by
  have hs := wf_slots hwf
  unfold add_cand
  unfold add_xroute
  rw [hfind]
  by_cases hroom : t.numxroutes < t.maxxroutes
  · have hge : ¬ t.numxroutes ≥ t.maxxroutes := by omega
    simp only [hge, if_false, hroom, if_true]
    refine ⟨rfl, ?_, rfl, rfl, ?_⟩
    · cases t with
      | mk xr n mx =>
        cases xr with
        | none => simp only [Table.wf] at hwf; simp at hroom; omega
        | some xs =>
          simp only [Table.wf] at hwf
          simp only [append_xroute, Table.store, Table.wf, Option.map_some', List.length_set]
          exact ⟨hwf.1, by simp at hroom; omega⟩
    · simp only [Table.entries, append_xroute_slots]
      exact take_succ_set _ _ _ (by omega)
  · have hge : t.numxroutes ≥ t.maxxroutes := by omega
    simp only [hge, if_true, hroom, if_false]
    refine ⟨rfl, ?_, rfl, ?_, ?_⟩
    · simp only [append_xroute, Table.store, Table.wf, Option.map_some', List.length_set,
        List.length_replicate, true_and]
      split <;> omega
    · simp only [append_xroute, Table.store, Nat.lt_one_iff]
    · simp only [Table.entries, append_xroute_slots]
      have hlen : t.numxroutes <
          (List.replicate (if t.maxxroutes < 1 then 8 else 2 * t.maxxroutes) Xroute.zero).length := by
        rw [List.length_replicate]
        split <;> omega
      show List.take (t.numxroutes + 1) (List.set (List.replicate _ Xroute.zero) t.numxroutes _) = _
      rw [take_succ_set _ _ _ hlen, List.take_replicate]
      rw [List.length_replicate] at hlen
      rw [Nat.min_eq_left (by omega)]
      rfl

theorem toXroute_key (c : Cand) : c.toXroute.key = c.key := rfl

theorem wf_empty : Table.empty.wf := by decide

/-- Inserting candidates with fresh, pairwise distinct keys while there is room appends
them to the stored entries and leaves the capacity alone. -/
theorem add_all_room : ∀ (cs : List Cand) (t : Table), t.wf →
    t.numxroutes + cs.length ≤ t.maxxroutes →
    (cs.map Cand.key).Nodup →
    (∀ c ∈ cs, ∀ y ∈ t.entries, y.key ≠ c.key) →
    (add_all true t cs).wf ∧
    (add_all true t cs).entries = t.entries ++ cs.map Cand.toXroute ∧
    (add_all true t cs).numxroutes = t.numxroutes + cs.length ∧
    (add_all true t cs).maxxroutes = t.maxxroutes := by
  intro cs
  induction cs with
  | nil => intro t hwf _ _ _; simp [add_all, hwf]
  | cons c cs ih =>
    intro t hwf hroom hnd hfresh
    have hlt : t.numxroutes < t.maxxroutes := by simp at hroom; omega
    have hfind : find_xroute t c.pfx c.plen c.src_pfx c.src_plen = none :=
      (find_xroute_none_iff hwf _ _ _ _).2 (fun y hy => hfresh c (List.mem_cons_self _ _) y hy)
    obtain ⟨_, hwf1, hn1, hm1, he1⟩ := add_xroute_absent hwf c hfind
    rw [if_pos hlt] at hm1 he1
    rw [List.map_cons, List.nodup_cons] at hnd
    have hfresh1 : ∀ c1 ∈ cs, ∀ y ∈ (add_cand true t c).entries, y.key ≠ c1.key := by
      intro c1 hc1 y hy
      rw [he1, List.mem_append] at hy
      rcases hy with hy | hy
      · exact hfresh c1 (List.mem_cons_of_mem _ hc1) y hy
      · rw [List.mem_singleton] at hy
        subst hy
        rw [toXroute_key]
        intro heq
        exact hnd.1 (heq ▸ List.mem_map_of_mem Cand.key hc1)
    obtain ⟨h1, h2, h3, h4⟩ := ih (add_cand true t c) hwf1
      (by rw [hn1, hm1]; simp at hroom; omega) hnd.2 hfresh1
    have hstep : add_all true t (c :: cs) = add_all true (add_cand true t c) cs := rfl
    rw [hstep]
    refine ⟨h1, ?_, ?_, ?_⟩
    · rw [h2, he1]; simp
    · rw [h3, hn1]; simp; omega
    · rw [h4, hm1]

/-- C9. Growth policy: for a key that is not stored, the allocation succeeding,
`add_xroute` leaves the capacity unchanged when `numxroutes < maxxroutes`, and
otherwise sets it to 8 when it was 0 and to twice its value when it was not.
Consequently, inserting nine candidates with pairwise distinct keys into the empty
table (capacity 0) gives capacity 8 after each of the first eight inserts, capacity 16
after the ninth, and a final population of 9. -/
theorem add_xroute_growth_policy :
    (∀ (t : Table) (p : Addr) (plen : Nat) (sp : Addr) (src_plen m ifindex : Nat) (proto : Int),
      find_xroute t p plen sp src_plen = none →
      (add_xroute true t p plen sp src_plen m ifindex proto).1.maxxroutes =
        if t.numxroutes < t.maxxroutes then t.maxxroutes
        else if t.maxxroutes = 0 then 8 else 2 * t.maxxroutes) ∧
    (∀ (cs : List Cand), cs.length = 9 → (cs.map Cand.key).Nodup →
      Table.empty.maxxroutes = 0 ∧
      (∀ k, 1 ≤ k → k ≤ 8 → (add_all true Table.empty (cs.take k)).maxxroutes = 8) ∧
      (add_all true Table.empty cs).maxxroutes = 16 ∧
      (add_all true Table.empty cs).numxroutes = 9) := by
  constructor
  · intro t p plen sp src_plen m ifindex proto hfind
    have hc := add_xroute_counts true t p plen sp src_plen m ifindex proto
    rw [hfind] at hc
    simp only [Option.isSome_none, Bool.false_eq_true, if_false] at hc
    have h2 := congrArg Prod.snd hc
    simp only at h2
    rw [h2]
    split <;> simp
  · intro cs hlen hnd
    cases cs with
    | nil => simp at hlen
    | cons c1 rest =>
      have hrlen : rest.length = 8 := by simpa using hlen
      rw [List.map_cons, List.nodup_cons] at hnd
      have hfind1 : find_xroute Table.empty c1.pfx c1.plen c1.src_pfx c1.src_plen = none := rfl
      obtain ⟨_, hwf1, hn1, hm1, he1⟩ := add_xroute_absent wf_empty c1 hfind1
      have hm1 : (add_cand true Table.empty c1).maxxroutes = 8 := by rw [hm1]; rfl
      have hn1 : (add_cand true Table.empty c1).numxroutes = 1 := by rw [hn1]; rfl
      have he1 : (add_cand true Table.empty c1).entries = [c1.toXroute] := by rw [he1]; rfl
      have hfresh : ∀ (l : List Cand), (∀ c ∈ l, c ∈ rest) →
          ∀ c ∈ l, ∀ y ∈ (add_cand true Table.empty c1).entries, y.key ≠ c.key := by
        intro l hl c hc y hy
        rw [he1, List.mem_singleton] at hy
        subst hy
        rw [toXroute_key]
        intro heq
        exact hnd.1 (heq ▸ List.mem_map_of_mem Cand.key (hl c hc))
      have hinit : ∀ j, j ≤ 7 →
          (add_all true (add_cand true Table.empty c1) (rest.take j)).wf ∧
          (add_all true (add_cand true Table.empty c1) (rest.take j)).entries =
            (add_cand true Table.empty c1).entries ++ (rest.take j).map Cand.toXroute ∧
          (add_all true (add_cand true Table.empty c1) (rest.take j)).numxroutes =
            (add_cand true Table.empty c1).numxroutes + (rest.take j).length ∧
          (add_all true (add_cand true Table.empty c1) (rest.take j)).maxxroutes =
            (add_cand true Table.empty c1).maxxroutes := by
        intro j hj
        apply add_all_room (rest.take j) _ hwf1
        · rw [hn1, hm1, List.length_take]; omega
        · exact hnd.2.sublist ((List.take_sublist j rest).map Cand.key)
        · exact hfresh _ (fun c hc => List.mem_of_mem_take hc)
      refine ⟨rfl, ?_, ?_⟩
      · intro k hk1 hk8
        obtain ⟨j, rfl⟩ : ∃ j, k = j + 1 := ⟨k - 1, by omega⟩
        have hstep : add_all true Table.empty ((c1 :: rest).take (j + 1)) =
            add_all true (add_cand true Table.empty c1) (rest.take j) := rfl
        rw [hstep, (hinit j (by omega)).2.2.2, hm1]
      · obtain ⟨hwf8, he8, hn8, hm8⟩ := hinit 7 (le_refl _)
        rw [hn1, List.length_take, hrlen] at hn8
        rw [hm1] at hm8
        obtain ⟨c9, hc9⟩ : ∃ c9, rest.drop 7 = [c9] := by
          match rest, hrlen with
          | [_, _, _, _, _, _, _, c9], _ => exact ⟨c9, rfl⟩
        have hsplit : rest = rest.take 7 ++ [c9] := by
          rw [← hc9, List.take_append_drop]
        have hnd2 := hnd.2
        rw [hsplit, List.map_append, List.nodup_append] at hnd2
        have hc9rest : c9 ∈ rest := by rw [hsplit]; simp
        have hfind9 : find_xroute (add_all true (add_cand true Table.empty c1) (rest.take 7))
            c9.pfx c9.plen c9.src_pfx c9.src_plen = none := by
          rw [find_xroute_none_iff hwf8]
          intro y hy
          rw [he8, he1, List.mem_append] at hy
          rcases hy with hy | hy
          · rw [List.mem_singleton] at hy
            subst hy
            rw [toXroute_key]
            intro heq
            exact hnd.1 (heq ▸ List.mem_map_of_mem Cand.key hc9rest)
          · obtain ⟨c, hc, rfl⟩ := List.mem_map.1 hy
            rw [toXroute_key]
            intro heq
            have hmem : c.key ∈ List.map Cand.key [c9] := by
              rw [heq]
              exact List.mem_map_of_mem Cand.key (List.mem_singleton_self c9)
            exact hnd2.2.2 (List.mem_map_of_mem Cand.key hc) hmem
        have hstep : add_all true Table.empty (c1 :: rest) =
            add_cand true (add_all true (add_cand true Table.empty c1) (rest.take 7)) c9 := by
          conv_lhs => rw [hsplit]
          simp [add_all, List.foldl_append]
        obtain ⟨_, _, hn9, hm9, _⟩ := add_xroute_absent hwf8 c9 hfind9
        rw [hstep, hn9, hm9, hn8, hm8]
        simp

/-- Witness for C9: the one-entry table and a new key, then `nine_cands`. -/
theorem add_xroute_growth_policy_witness :
    (add_xroute true one_entry_table (addr_of_byte 2) 8 zeroes 0 10 1 0).1.maxxroutes =
        (if one_entry_table.numxroutes < one_entry_table.maxxroutes then one_entry_table.maxxroutes
         else if one_entry_table.maxxroutes = 0 then 8 else 2 * one_entry_table.maxxroutes) ∧
    (Table.empty.maxxroutes = 0 ∧
      (∀ k, 1 ≤ k → k ≤ 8 → (add_all true Table.empty (nine_cands.take k)).maxxroutes = 8) ∧
      (add_all true Table.empty nine_cands).maxxroutes = 16 ∧
      (add_all true Table.empty nine_cands).numxroutes = 9) :=
  ⟨add_xroute_growth_policy.1 one_entry_table (addr_of_byte 2) 8 zeroes 0 10 1 0 (by decide),
   add_xroute_growth_policy.2 nine_cands (by decide) (by decide)⟩

theorem set_perm_eraseIdx_append {α : Type} (z : α) :
    ∀ (l : List α) (i : Nat), i < l.length → List.Perm (l.set i z) ((l ++ [z]).eraseIdx i) := by
  intro l
  induction l with
  | nil => intro i h; simp at h
  | cons a tl ih =>
    intro i h
    cases i with
    | zero =>
      simp only [List.set_cons_zero, List.cons_append, List.eraseIdx_cons_zero]
      exact (List.perm_append_singleton z tl).symm
    | succ k =>
      simp only [List.length_cons, Nat.add_lt_add_iff_right] at h
      simp only [List.set_cons_succ, List.cons_append, List.eraseIdx_cons_succ]
      exact (ih k h).cons a

theorem eraseIdx_append_last {α : Type} (z : α) :
    ∀ (l : List α), (l ++ [z]).eraseIdx l.length = l := by
  intro l
  induction l with
  | nil => rfl
  | cons a tl ih => simp [ih]

/-- The stored entries split as the first `numxroutes - 1` slots and the last stored
slot. -/
theorem entries_split {t : Table} (hwf : t.wf) (hpos : 0 < t.numxroutes) :
    t.entries = t.slots.take (t.numxroutes - 1) ++ [t.get (t.numxroutes - 1)] := by
  have hs := wf_slots hwf
  have hlt : t.numxroutes - 1 < t.slots.length := by omega
  have hn : t.numxroutes = (t.numxroutes - 1) + 1 := by omega
  unfold Table.entries
  conv_lhs => rw [hn]
  rw [List.take_succ, List.getElem?_eq_getElem hlt]
  simp [Table.get, List.getD, List.getElem?_eq_getElem hlt]

/-- The stored entries after `flush_xroute` on a slot in use: the first
`numxroutes - 1` slots, with slot `i` overwritten by the last stored slot when `i` is
not that last slot. -/
theorem flush_xroute_entries (realloc_ok : Bool) {t : Table} (hwf : t.wf) {i : Nat}
    (hi : i < t.numxroutes) :
    ∃ t1, flush_xroute realloc_ok t i = some t1 ∧ t1.numxroutes = t.numxroutes - 1 ∧
      t1.entries =
        if i ≠ t.numxroutes - 1 then
          (t.slots.take (t.numxroutes - 1)).set i (t.get (t.numxroutes - 1))
        else t.slots.take (t.numxroutes - 1) := by
  refine ⟨_, flush_xroute_eq realloc_ok t i hi, rfl, ?_⟩
  have hs := wf_slots hwf
  cases t with
  | mk xr n mx =>
    cases xr with
    | none =>
      simp only [Table.wf] at hwf
      simp only at hi
      omega
    | some xs =>
      simp only [Table.slots, Option.getD_some] at hs ⊢
      simp only at hi
      by_cases h0 : n - 1 = 0
      · have hi0 : i = 0 := by omega
        simp [Table.entries, Table.slots, h0, hi0]
      · by_cases hlast : i ≠ n - 1
        · by_cases hshrink : 8 < mx ∧ n - 1 < mx / 4 ∧ realloc_ok = true
          · simp only [Table.entries, Table.slots, h0, hlast, hshrink, Table.store, if_true,
              if_false, and_self, Option.map_some', Option.getD_some, ne_eq, not_false_eq_true,
              List.take_take]
            rw [Nat.min_eq_left (by omega), List.set_take]
          · simp only [Table.entries, Table.slots, h0, hlast, hshrink, Table.store, if_true,
              if_false, Option.map_some', Option.getD_some, ne_eq, not_false_eq_true]
            rw [List.set_take]
        · by_cases hshrink : 8 < mx ∧ n - 1 < mx / 4 ∧ realloc_ok = true
          · simp only [Table.entries, Table.slots, h0, hlast, hshrink, if_true,
              if_false, and_self, Option.map_some', Option.getD_some,
              List.take_take]
            rw [Nat.min_eq_left (by omega)]
          · simp only [Table.entries, Table.slots, h0, hlast, hshrink, if_true,
              if_false, Option.map_some', Option.getD_some]

/-- C6. Removal preserves others: on a memory-safe table, `flush_xroute` on a slot `i`
in use returns (whether a shrink is attempted, succeeds or fails), the population
decreases by exactly 1, the stored entries are a permutation of the entries stored
before with the entry of slot `i` taken out (every field of every other entry
unchanged), each slot other than `i` that is still in use holds what it held, and slot
`i`, when still in use, holds what the last stored slot held. -/
theorem flush_xroute_preserves_others (realloc_ok : Bool) (t : Table) (i : Nat)
    (hwf : t.wf) (hi : i < t.numxroutes) :
    ∃ t1, flush_xroute realloc_ok t i = some t1 ∧
      t1.numxroutes + 1 = t.numxroutes ∧
      t1.entries.length = t1.numxroutes ∧
      List.Perm t1.entries (t.entries.eraseIdx i) ∧
      (∀ j, j < t1.numxroutes → j ≠ i → t1.entries[j]? = t.entries[j]?) ∧
      (i < t1.numxroutes → t1.entries[i]? = t.entries[t.numxroutes - 1]?) := by
  obtain ⟨t1, h1, hn, he⟩ := flush_xroute_entries realloc_ok hwf hi
  have hs := wf_slots hwf
  have hsplit := entries_split hwf (by omega)
  have hlen : (t.slots.take (t.numxroutes - 1)).length = t.numxroutes - 1 := by
    rw [List.length_take]; omega
  refine ⟨t1, h1, by omega, ?_, ?_, ?_, ?_⟩
  · rw [he, hn]
    split
    · rw [List.length_set, hlen]
    · exact hlen
  · rw [he, hsplit]
    by_cases hlast : i ≠ t.numxroutes - 1
    · rw [if_pos hlast]
      exact set_perm_eraseIdx_append _ _ i (by omega)
    · rw [if_neg hlast]
      have hi2 : i = (t.slots.take (t.numxroutes - 1)).length := by omega
      rw [hi2, eraseIdx_append_last]
  · intro j hj hji
    rw [he, hsplit, List.getElem?_append_left (by omega)]
    split
    · rw [List.getElem?_set_ne (fun h => hji h.symm)]
    · rfl
  · intro hi1
    have hlast : i ≠ t.numxroutes - 1 := by omega
    rw [he, hsplit, if_pos hlast, List.getElem?_set_self (by omega)]
    rw [List.getElem?_append_right (by omega), hlen]
    simp

/-- Witness for C6: removal of slot 2 of the full eight-entry table. -/
theorem flush_xroute_preserves_others_witness :
    ∃ t1, flush_xroute true full_table 2 = some t1 ∧
      t1.numxroutes + 1 = full_table.numxroutes ∧
      t1.entries.length = t1.numxroutes ∧
      List.Perm t1.entries (full_table.entries.eraseIdx 2) ∧
      (∀ j, j < t1.numxroutes → j ≠ 2 →
        t1.entries[j]? = full_table.entries[j]?) ∧
      (2 < t1.numxroutes → t1.entries[2]? =
        full_table.entries[full_table.numxroutes - 1]?) :=
  flush_xroute_preserves_others true full_table 2
    (by decide) (by decide)

/-- C1 fails on the code. Nine upserts of pairwise distinct keys into the empty table,
every allocation succeeding, all return 1; the ninth reallocates and zeroes the whole
array, so slots 0 and 1, both below the population count 9, hold the same all-zero key
and the keys of the stored entries are not pairwise distinct. -/
theorem add_xroute_growth_duplicates_key :
    (nine_cands.map Cand.key).Nodup ∧
    add_results true Table.empty nine_cands = [1, 1, 1, 1, 1, 1, 1, 1, 1] ∧
    (add_all true Table.empty (nine_cands.take 8)).entries.map Xroute.key =
      (nine_cands.take 8).map Cand.key ∧
    (add_all true Table.empty nine_cands).numxroutes = 9 ∧
    ((add_all true Table.empty nine_cands).get 0).key = (zeroes, 0, zeroes, 0) ∧
    ((add_all true Table.empty nine_cands).get 1).key = (zeroes, 0, zeroes, 0) ∧
    ¬ ((add_all true Table.empty nine_cands).entries.map Xroute.key).Nodup :=
  ⟨by decide, by decide, by decide, by decide, by decide, by decide, by decide⟩

/-- C3 fails on the code. On the full table (eight entries, capacity 8) the key of
slot 0 is found with metric 10; after a successful upsert of a ninth, different key
(return code 1, capacity 16) that key is no longer found: the reallocated array was
zeroed before the new entry was written. -/
theorem add_xroute_growth_drops_entries :
    find_xroute full_table (addr_of_byte 1) 8 zeroes 0 = some 0 ∧
    (full_table.get 0).metric = 10 ∧
    (addr_of_byte 1, 8, zeroes, 0) ≠ ((addr_of_byte 9, 8, zeroes, 0) : Addr × Nat × Addr × Nat) ∧
    (add_xroute true full_table (addr_of_byte 9) 8 zeroes 0 10 1 0).2 = 1 ∧
    (add_xroute true full_table (addr_of_byte 9) 8 zeroes 0 10 1 0).1.maxxroutes = 16 ∧
    find_xroute (add_xroute true full_table (addr_of_byte 9) 8 zeroes 0 10 1 0).1
      (addr_of_byte 1) 8 zeroes 0 = none ∧
    (add_xroute true full_table (addr_of_byte 9) 8 zeroes 0 10 1 0).1.entries =
      List.replicate 8 Xroute.zero ++ [(cand_of 9 8 10 1).toXroute] :=
  ⟨by decide, by decide, by decide, by decide, by decide, by decide, by decide⟩

/-- C7 fails on the code. In the run `default_then_eight` (nine distinct keys, each
upsert returning 1) the only upsert for the key `::/0` carries metric 10, and eight
upserts later that key is stored at slot 0 with metric 10; after the ninth upsert,
which reallocates, the key is stored at slot 0 with metric 0. -/
theorem add_xroute_growth_resets_metric :
    add_results true Table.empty default_then_eight = [1, 1, 1, 1, 1, 1, 1, 1, 1] ∧
    (default_then_eight.filter (fun c => decide (c.key = default_cand.key))).map Cand.metric
      = [10] ∧
    find_xroute (add_all true Table.empty (default_then_eight.take 8)) zeroes 0 zeroes 0
      = some 0 ∧
    ((add_all true Table.empty (default_then_eight.take 8)).get 0).metric = 10 ∧
    find_xroute (add_all true Table.empty default_then_eight) zeroes 0 zeroes 0 = some 0 ∧
    ((add_all true Table.empty default_then_eight).get 0).metric = 0 :=
  ⟨by decide, by decide, by decide, by decide, by decide, by decide⟩

/-- C11. Filter rejection is a silent drop: when the martian predicate holds for
(prefix, plen), or the policy filter gives a metric at or above `INFINITY`,
`xroute_add_new_route` returns 0, leaves the table (backing array, population,
capacity) as it was and makes no outgoing call, for every raw metric, allocation
outcome and propagate flag. -/
theorem xroute_add_new_route_rejected (env : Env) (alloc_ok : Bool) (t : Table) (p : Addr)
    (plen : Nat) (sp : Addr) (src_plen metric ifindex : Nat) (proto send_updates : Int)
    (h : env.martian_prefix p plen = true ∨
      env.INFINITY ≤ env.redistribute_filter p plen ifindex proto) :
    xroute_add_new_route env alloc_ok t p plen sp src_plen metric ifindex proto send_updates
      = (t, [], 0) := by
  unfold xroute_add_new_route
  by_cases hm : env.martian_prefix p plen = true
  · rw [if_pos hm]
  · rw [if_neg hm]
    rcases h with h | h
    · exact absurd h hm
    · have hlt : ¬ env.redistribute_filter p plen ifindex proto < env.INFINITY := by omega
      simp only [hlt, if_false]

/-- Witness for C11: a martian destination on the one-entry table. -/
theorem xroute_add_new_route_rejected_witness :
    xroute_add_new_route sample_env true one_entry_table (addr_of_byte 255) 8 zeroes 0 3 1 0 1
      = (one_entry_table, [], 0) :=
  xroute_add_new_route_rejected sample_env true one_entry_table (addr_of_byte 255) 8 zeroes 0
    3 1 0 1 (Or.inl (by decide))

/-- C12. Conflict resolution and notification happen exactly on a table change. The
outgoing calls of `xroute_add_new_route` are: when the candidate passes both filters
and `add_xroute` (called with the filter's metric) returns a value above 0, one
`find_installed_route` for the key, then one `uninstall_route` of the route found if
one is found, then one `send_update` for the key if the propagate flag is not 0, and
the result is 1; in every other case (rejected, or `add_xroute` returned 0 or -1) no
call at all, and the result is 0. -/
theorem xroute_add_new_route_calls (env : Env) (alloc_ok : Bool) (t : Table) (p : Addr)
    (plen : Nat) (sp : Addr) (src_plen metric ifindex : Nat) (proto send_updates : Int) :
    (env.martian_prefix p plen = false →
      env.redistribute_filter p plen ifindex proto < env.INFINITY →
      0 < (add_xroute alloc_ok t p plen sp src_plen
            (env.redistribute_filter p plen ifindex proto) ifindex proto).2 →
      (xroute_add_new_route env alloc_ok t p plen sp src_plen metric ifindex proto
          send_updates).2.2 = 1 ∧
      (xroute_add_new_route env alloc_ok t p plen sp src_plen metric ifindex proto
          send_updates).2.1 =
        [Event.find_installed_route p plen sp src_plen] ++
          (match env.find_installed_route p plen sp src_plen with
           | some route => [Event.uninstall_route route]
           | none => []) ++
          (if send_updates ≠ 0 then [Event.send_update p plen sp src_plen] else []) ∧
      count_lookups (xroute_add_new_route env alloc_ok t p plen sp src_plen metric ifindex
          proto send_updates).2.1 = 1 ∧
      count_uninstalls (xroute_add_new_route env alloc_ok t p plen sp src_plen metric ifindex
          proto send_updates).2.1 =
        (if (env.find_installed_route p plen sp src_plen).isSome then 1 else 0) ∧
      count_updates (xroute_add_new_route env alloc_ok t p plen sp src_plen metric ifindex
          proto send_updates).2.1 = (if send_updates ≠ 0 then 1 else 0)) ∧
    (¬ (env.martian_prefix p plen = false ∧
        env.redistribute_filter p plen ifindex proto < env.INFINITY ∧
        0 < (add_xroute alloc_ok t p plen sp src_plen
              (env.redistribute_filter p plen ifindex proto) ifindex proto).2) →
      (xroute_add_new_route env alloc_ok t p plen sp src_plen metric ifindex proto
          send_updates).2.2 = 0 ∧
      (xroute_add_new_route env alloc_ok t p plen sp src_plen metric ifindex proto
          send_updates).2.1 = []) := by
  constructor
  · intro hm hf hrc
    have hrc2 : (add_xroute alloc_ok t p plen sp src_plen
            (env.redistribute_filter p plen ifindex proto) ifindex proto).2 > 0 := hrc
    unfold xroute_add_new_route
    simp only [hm, Bool.false_eq_true, if_false, hf, if_true, hrc2, true_and]
    cases env.find_installed_route p plen sp src_plen <;>
      by_cases hs : send_updates = 0 <;>
      simp [hs, count_lookups, count_uninstalls, count_updates]
  · intro hno
    unfold xroute_add_new_route
    by_cases hm : env.martian_prefix p plen = true
    · simp [hm]
    · have hm2 : env.martian_prefix p plen = false := by simpa using hm
      by_cases hf : env.redistribute_filter p plen ifindex proto < env.INFINITY
      · have hrc : ¬ (add_xroute alloc_ok t p plen sp src_plen
            (env.redistribute_filter p plen ifindex proto) ifindex proto).2 > 0 :=
          fun h => hno ⟨hm2, hf, h⟩
        simp [hm2, hf, hrc]
      · simp [hm2, hf]

/-- Witness for C12: on the one-entry table, a better metric (7 < 10) for the stored
key, for which a route is installed, with the propagate flag set, and the same
candidate offered again. -/
theorem xroute_add_new_route_calls_witness :
    ((xroute_add_new_route sample_env true one_entry_table (addr_of_byte 1) 8 zeroes 0 3 1 0
          1).2.2 = 1 ∧
      (xroute_add_new_route sample_env true one_entry_table (addr_of_byte 1) 8 zeroes 0 3 1 0
          1).2.1 =
        [Event.find_installed_route (addr_of_byte 1) 8 zeroes 0, Event.uninstall_route 42,
         Event.send_update (addr_of_byte 1) 8 zeroes 0]) ∧
    ((xroute_add_new_route sample_env true
        (xroute_add_new_route sample_env true one_entry_table (addr_of_byte 1) 8 zeroes 0 3 1 0
          1).1 (addr_of_byte 1) 8 zeroes 0 3 1 0 1).2.2 = 0 ∧
      (xroute_add_new_route sample_env true
        (xroute_add_new_route sample_env true one_entry_table (addr_of_byte 1) 8 zeroes 0 3 1 0
          1).1 (addr_of_byte 1) 8 zeroes 0 3 1 0 1).2.1 = []) :=
  ⟨⟨((xroute_add_new_route_calls sample_env true one_entry_table (addr_of_byte 1) 8 zeroes 0
        3 1 0 1).1 (by decide) (by decide) (by decide)).1,
    ((xroute_add_new_route_calls sample_env true one_entry_table (addr_of_byte 1) 8 zeroes 0
        3 1 0 1).1 (by decide) (by decide) (by decide)).2.1⟩,
   (xroute_add_new_route_calls sample_env true
      (xroute_add_new_route sample_env true one_entry_table (addr_of_byte 1) 8 zeroes 0 3 1 0
        1).1 (addr_of_byte 1) 8 zeroes 0 3 1 0 1).2 (by decide)⟩

/-- A lookup misses when no scanned slot has the key (no bound on the array needed). -/
theorem find_loop_none_of_absent {xs : List Xroute} {p : Addr} {plen : Nat} {sp : Addr}
    {src_plen : Nat} :
    ∀ {fuel i : Nat},
      (∀ k, i ≤ k → k < i + fuel → ∀ y, xs[k]? = some y → y.key ≠ (p, plen, sp, src_plen)) →
      find_xroute_loop xs p plen sp src_plen fuel i = none := by
  intro fuel
  induction fuel with
  | zero => intro i _; rfl
  | succ fuel ih =>
    intro i h
    simp only [find_xroute_loop]
    cases hx : xs[i]? with
    | none => rfl
    | some x =>
      have hk : ¬ key_matches x p plen sp src_plen = true :=
        fun hc => h i (le_refl _) (by omega) x hx ((key_matches_iff _ _ _ _ _).1 hc)
      simp only [hk, Bool.false_eq_true, if_false]
      exact ih (fun k h1 h2 => h k (by omega) (by omega))

/-- A slot in use that exists is one of the stored entries. -/
theorem mem_entries_of_slot {t : Table} {k : Nat} {y : Xroute} (hk : k < t.numxroutes)
    (hy : t.slots[k]? = some y) : y ∈ t.entries := by
  have hlt := slot_lt_length hy
  rw [List.getElem?_eq_getElem hlt] at hy
  cases hy
  simp only [Table.entries]
  rw [List.mem_take_iff_getElem]
  exact ⟨k, by omega, rfl⟩

theorem find_xroute_none_of_absent {t : Table} {p : Addr} {plen : Nat} {sp : Addr}
    {src_plen : Nat} (h : ∀ y ∈ t.entries, y.key ≠ (p, plen, sp, src_plen)) :
    find_xroute t p plen sp src_plen = none := by
  unfold find_xroute
  apply find_loop_none_of_absent
  intro k _ hk y hy
  exact h y (mem_entries_of_slot (by omega) hy)

/-- C13. Withdrawal of an absent key is a no-op: when no stored entry has the key, the
lookup-then-removal of the delete functions returns with the table (backing array,
population, capacity) as it was, and `babel_ipv4_route_delete` and
`babel_ipv6_route_delete` make no outgoing call. -/
theorem withdraw_absent_key_noop (env : Env) (realloc_ok : Bool) (t : Table) :
    (∀ (p : Addr) (plen : Nat) (sp : Addr) (src_plen : Nat),
      (∀ y ∈ t.entries, y.key ≠ (p, plen, sp, src_plen)) →
      withdraw realloc_ok t p plen sp src_plen = some t) ∧
    (∀ (pfx4 : In4) (prefixlen : Nat),
      (∀ y ∈ t.entries,
        y.key ≠ (env.inaddr_to_uchar pfx4, (prefixlen + 96) % 256, zeroes, 0)) →
      babel_ipv4_route_delete env realloc_ok t pfx4 prefixlen = some (t, [])) ∧
    (∀ (pfx6 : Addr) (prefixlen : Nat) (src6 : Addr) (src_prefixlen : Nat),
      (∀ y ∈ t.entries,
        y.key ≠ (env.in6addr_to_uchar pfx6, prefixlen, env.in6addr_to_uchar src6,
          src_prefixlen)) →
      babel_ipv6_route_delete env realloc_ok t pfx6 prefixlen src6 src_prefixlen
        = some (t, [])) := by
  have hw : ∀ (p : Addr) (plen : Nat) (sp : Addr) (src_plen : Nat),
      (∀ y ∈ t.entries, y.key ≠ (p, plen, sp, src_plen)) →
      withdraw realloc_ok t p plen sp src_plen = some t := by
    intro p plen sp src_plen h
    unfold withdraw
    rw [find_xroute_none_of_absent h]
  refine ⟨hw, ?_, ?_⟩
  · intro pfx4 prefixlen h
    unfold babel_ipv4_route_delete
    rw [hw _ _ _ _ h]
    rfl
  · intro pfx6 prefixlen src6 src_prefixlen h
    unfold babel_ipv6_route_delete
    rw [hw _ _ _ _ h]
    rfl

/-- Witness for C13: on the full table (destinations 1.. to 8..), the key
`9.0.../8`, the IPv4 prefix 10.0.0.1/32 and the IPv6 key `9.0.../8` from `::/0`. -/
theorem withdraw_absent_key_noop_witness :
    withdraw true full_table (addr_of_byte 9) 8 zeroes 0 = some full_table ∧
    babel_ipv4_route_delete sample_env true full_table ten_addr 32 = some (full_table, []) ∧
    babel_ipv6_route_delete sample_env true full_table (addr_of_byte 9) 8 zeroes 0
      = some (full_table, []) :=
  ⟨(withdraw_absent_key_noop sample_env true full_table).1 (addr_of_byte 9) 8 zeroes 0
      (by decide),
   (withdraw_absent_key_noop sample_env true full_table).2.1 ten_addr 32 (by decide),
   (withdraw_absent_key_noop sample_env true full_table).2.2 (addr_of_byte 9) 8 zeroes 0
      (by decide)⟩

/-- The converse of `find_loop_some`: the smallest matching slot of the scanned range
is what the lookup returns. -/
theorem find_loop_of_first {xs : List Xroute} {p : Addr} {plen : Nat} {sp : Addr}
    {src_plen : Nat} :
    ∀ {fuel i j : Nat}, i ≤ j → j < i + fuel →
      (∃ x, xs[j]? = some x ∧ x.key = (p, plen, sp, src_plen)) →
      (∀ k, i ≤ k → k < j → ∀ y, xs[k]? = some y → y.key ≠ (p, plen, sp, src_plen)) →
      find_xroute_loop xs p plen sp src_plen fuel i = some j := by
  intro fuel
  induction fuel with
  | zero => intro i j h1 h2; omega
  | succ fuel ih =>
    intro i j h1 h2 hx hfirst
    obtain ⟨x, hxj, hxk⟩ := hx
    simp only [find_xroute_loop]
    by_cases hij : i = j
    · subst hij
      have hk := (key_matches_iff x p plen sp src_plen).2 hxk
      simp only [hxj, hk, if_true]
    · have hlt : i < xs.length := by
        have : j < xs.length := by
          by_contra hc
          rw [List.getElem?_eq_none (by omega)] at hxj
          cases hxj
        omega
      rw [List.getElem?_eq_getElem hlt]
      have hk : ¬ key_matches xs[i] p plen sp src_plen = true :=
        fun hc => hfirst i (le_refl _) (by omega) _ (List.getElem?_eq_getElem hlt)
          ((key_matches_iff _ _ _ _ _).1 hc)
      simp only [hk, Bool.false_eq_true, if_false]
      exact ih (by omega) (by omega) ⟨x, hxj, hxk⟩
        (fun k h3 h4 => hfirst k (by omega) h4)

/-- C19. Lookup correctness: `find_xroute` returns slot `j` exactly when `j` is below
the population count, slot `j` has the key, and no slot before `j` has it (so `j` is
the smallest such index); it returns an entry exactly when some slot below the
population count has the key; and a slot at or above the population count is never
returned. -/
theorem find_xroute_correct (t : Table) (p : Addr) (plen : Nat) (sp : Addr) (src_plen : Nat) :
    (∀ j, find_xroute t p plen sp src_plen = some j ↔
      j < t.numxroutes ∧
      (∃ x, t.slots[j]? = some x ∧ x.key = (p, plen, sp, src_plen)) ∧
      ∀ k, k < j → ∀ y, t.slots[k]? = some y → y.key ≠ (p, plen, sp, src_plen)) ∧
    ((find_xroute t p plen sp src_plen).isSome ↔
      ∃ i, i < t.numxroutes ∧ ∃ x, t.slots[i]? = some x ∧ x.key = (p, plen, sp, src_plen)) ∧
    (∀ j, find_xroute t p plen sp src_plen = some j → j < t.numxroutes) := by
  have hfirst : ∀ j, find_xroute t p plen sp src_plen = some j ↔
      j < t.numxroutes ∧
      (∃ x, t.slots[j]? = some x ∧ x.key = (p, plen, sp, src_plen)) ∧
      ∀ k, k < j → ∀ y, t.slots[k]? = some y → y.key ≠ (p, plen, sp, src_plen) := by
    intro j
    constructor
    · intro h
      obtain ⟨_, h2, h3, h4⟩ := find_loop_some h
      refine ⟨by omega, h3, ?_⟩
      intro k hk y hy
      obtain ⟨y1, hy1, hne⟩ := h4 k (Nat.zero_le _) hk
      rw [hy] at hy1
      cases hy1
      exact hne
    · rintro ⟨h1, h2, h3⟩
      exact find_loop_of_first (Nat.zero_le _) (by omega) h2 (fun k _ hk => h3 k hk)
  refine ⟨hfirst, ?_, fun j h => ((hfirst j).1 h).1⟩
  constructor
  · intro h
    obtain ⟨j, hj⟩ := Option.isSome_iff_exists.1 h
    exact ⟨j, ((hfirst j).1 hj).1, ((hfirst j).1 hj).2.1⟩
  · rintro ⟨i, hi, hx⟩
    classical
    have hex : ∃ i, i < t.numxroutes ∧
        ∃ x, t.slots[i]? = some x ∧ x.key = (p, plen, sp, src_plen) := ⟨i, hi, hx⟩
    have hspec := Nat.find_spec hex
    have hmin := fun k (hk : k < Nat.find hex) => Nat.find_min hex hk
    have hfound : find_xroute t p plen sp src_plen = some (Nat.find hex) := by
      rw [hfirst]
      refine ⟨hspec.1, hspec.2, ?_⟩
      intro k hk y hy hkey
      exact hmin k hk ⟨by omega, y, hy, hkey⟩
    rw [hfound]
    rfl

/-- Witness for C19: the key of slot 2 of the full table. -/
theorem find_xroute_correct_witness :
    find_xroute full_table (addr_of_byte 3) 8 zeroes 0 = some 2 ∧
    (find_xroute full_table (addr_of_byte 3) 8 zeroes 0).isSome ∧
    2 < full_table.numxroutes :=
  ⟨((find_xroute_correct full_table (addr_of_byte 3) 8 zeroes 0).1 2).2
      ⟨by decide, ⟨full_table.get 2, by decide, by decide⟩, by
        intro k hk y hy
        have hk2 : k = 0 ∨ k = 1 := by omega
        rcases hk2 with rfl | rfl
        · have : full_table.slots[0]? = some (cand_of 1 8 10 1).toXroute := by decide
          rw [this] at hy; cases hy; decide
        · have : full_table.slots[1]? = some (cand_of 2 8 10 1).toXroute := by decide
          rw [this] at hy; cases hy; decide⟩,
   (find_xroute_correct full_table (addr_of_byte 3) 8 zeroes 0).2.1.2
      ⟨2, by decide, full_table.get 2, by decide, by decide⟩,
   (find_xroute_correct full_table (addr_of_byte 3) 8 zeroes 0).2.2 2 (by decide)⟩

/-- C20. The removal assertion cannot fail on the withdrawal path: every slot index
`find_xroute` returns is below the population count, so `flush_xroute` on it passes its
assertion and returns; hence the lookup-then-removal, `babel_ipv4_route_delete` and
`babel_ipv6_route_delete` return on every table and every argument. -/
theorem withdraw_assertion_holds (env : Env) (realloc_ok : Bool) (t : Table) :
    (∀ (p : Addr) (plen : Nat) (sp : Addr) (src_plen i : Nat),
      find_xroute t p plen sp src_plen = some i →
      i < t.numxroutes ∧ (flush_xroute realloc_ok t i).isSome) ∧
    (∀ (p : Addr) (plen : Nat) (sp : Addr) (src_plen : Nat),
      (withdraw realloc_ok t p plen sp src_plen).isSome) ∧
    (∀ (pfx4 : In4) (prefixlen : Nat),
      (babel_ipv4_route_delete env realloc_ok t pfx4 prefixlen).isSome) ∧
    (∀ (pfx6 : Addr) (prefixlen : Nat) (src6 : Addr) (src_prefixlen : Nat),
      (babel_ipv6_route_delete env realloc_ok t pfx6 prefixlen src6 src_prefixlen).isSome) := by
  have h1 : ∀ (p : Addr) (plen : Nat) (sp : Addr) (src_plen i : Nat),
      find_xroute t p plen sp src_plen = some i →
      i < t.numxroutes ∧ (flush_xroute realloc_ok t i).isSome := by
    intro p plen sp src_plen i h
    have hi := (find_xroute_some h).1
    refine ⟨hi, ?_⟩
    rw [flush_xroute_eq realloc_ok t i hi]
    rfl
  have h2 : ∀ (p : Addr) (plen : Nat) (sp : Addr) (src_plen : Nat),
      (withdraw realloc_ok t p plen sp src_plen).isSome := by
    intro p plen sp src_plen
    unfold withdraw
    cases hf : find_xroute t p plen sp src_plen with
    | none => rfl
    | some i => exact (h1 p plen sp src_plen i hf).2
  refine ⟨h1, h2, ?_, ?_⟩
  · intro pfx4 prefixlen
    unfold babel_ipv4_route_delete
    rw [Option.isSome_map']
    exact h2 _ _ _ _
  · intro pfx6 prefixlen src6 src_prefixlen
    unfold babel_ipv6_route_delete
    rw [Option.isSome_map']
    exact h2 _ _ _ _

/-- Witness for C20: the key of slot 2 of the full table. -/
theorem withdraw_assertion_holds_witness :
    find_xroute full_table (addr_of_byte 3) 8 zeroes 0 = some 2 ∧
    2 < full_table.numxroutes ∧ (flush_xroute true full_table 2).isSome :=
  ⟨by decide,
   (withdraw_assertion_holds sample_env true full_table).1 (addr_of_byte 3) 8 zeroes 0 2
     (by decide)⟩

/-- The traversal loop is a left fold over the indices it goes through. -/
theorem for_all_xroutes_loop_eq {σ : Type} (f : Nat → Xroute → σ → σ) (t : Table) :
    ∀ (fuel i : Nat) (s : σ),
      for_all_xroutes_loop f t fuel i s =
        (List.range' i fuel).foldl (fun s k => f k (t.get k) s) s := by
  intro fuel
  induction fuel with
  | zero => intro i s; rfl
  | succ fuel ih =>
    intro i s
    simp only [for_all_xroutes_loop, List.range'_succ, List.foldl_cons]
    exact ih (i + 1) _

theorem foldl_record_visit (t : Table) :
    ∀ (l : List Nat) (log : List (Nat × Xroute)),
      l.foldl (fun s k => record_visit k (t.get k) s) log =
        log ++ l.map (fun k => (k, t.get k)) := by
  intro l
  induction l with
  | nil => intro log; simp
  | cons a l ih =>
    intro log
    simp only [List.foldl_cons, List.map_cons]
    rw [ih]
    simp [record_visit]

/-- Reading the slots below the population count one by one gives the stored
entries. -/
theorem map_get_range {t : Table} (hwf : t.wf) :
    (List.range t.numxroutes).map t.get = t.entries := by
  have hs := wf_slots hwf
  apply List.ext_getElem?
  intro k
  simp only [Table.entries, List.getElem?_map, List.getElem?_range', List.getElem?_take]
  by_cases hk : k < t.numxroutes
  · have hlt : k < t.slots.length := by omega
    simp [hk, List.getElem?_range, Table.get, List.getD, List.getElem?_eq_getElem hlt]
  · simp [hk, List.getElem?_range]
    omega

/-- C15. Traversal and count: on a memory-safe table, `for_all_xroutes` applies the
visitor to the slots 0, 1, .., `numxroutes - 1` in that order, each once, threading the
closure; the entries visited are the stored entries in storage order, nothing else is
visited, and the number of visits is the value of `xroutes_estimate`, which is the
number of stored entries. -/
theorem for_all_xroutes_visits (t : Table) (hwf : t.wf) :
    (∀ (σ : Type) (f : Nat → Xroute → σ → σ) (c : σ),
      for_all_xroutes f c t =
        (List.range t.numxroutes).foldl (fun s i => f i (t.get i) s) c) ∧
    (for_all_xroutes record_visit [] t).map Prod.fst = List.range t.numxroutes ∧
    (for_all_xroutes record_visit [] t).map Prod.snd = t.entries ∧
    (for_all_xroutes record_visit [] t).length = xroutes_estimate t ∧
    xroutes_estimate t = t.entries.length := by
  have hfold : ∀ (σ : Type) (f : Nat → Xroute → σ → σ) (c : σ),
      for_all_xroutes f c t =
        (List.range t.numxroutes).foldl (fun s i => f i (t.get i) s) c := by
    intro σ f c
    unfold for_all_xroutes
    rw [for_all_xroutes_loop_eq, List.range_eq_range']
  have hlog : for_all_xroutes record_visit [] t =
      (List.range t.numxroutes).map (fun k => (k, t.get k)) := by
    rw [hfold, foldl_record_visit]
    rfl
  refine ⟨hfold, ?_, ?_, ?_, ?_⟩
  · rw [hlog, List.map_map]
    exact List.map_id _
  · rw [hlog, List.map_map]
    exact map_get_range hwf
  · rw [hlog]
    simp [xroutes_estimate]
  · rw [entries_length hwf]
    rfl

/-- Witness for C15: the full table, eight visits. -/
theorem for_all_xroutes_visits_witness :
    (for_all_xroutes record_visit [] full_table).map Prod.fst = List.range 8 ∧
    (for_all_xroutes record_visit [] full_table).map Prod.snd = full_table.entries ∧
    (for_all_xroutes record_visit [] full_table).length = xroutes_estimate full_table ∧
    xroutes_estimate full_table = full_table.entries.length :=
  (for_all_xroutes_visits full_table (by decide)).2

theorem append_xroute_get (t : Table) (p : Addr) (plen : Nat) (sp : Addr) (src_plen : Nat)
    (m ifindex : Nat) (proto : Int) (h : t.numxroutes < t.slots.length) :
    (append_xroute t p plen sp src_plen m ifindex proto).1.get t.numxroutes =
      { pfx := p, plen := plen, src_pfx := sp, src_plen := src_plen,
        metric := m, ifindex := ifindex, proto := proto } := by
  simp [Table.get, List.getD, append_xroute_slots, List.getElem?_set, h]

/-- An `add_xroute` call that returns a value above 0 for a key that was not found
has written the candidate to slot `numxroutes` and counted it. -/
theorem add_xroute_absent_get {t : Table} (hwf : t.wf) (alloc_ok : Bool) (p : Addr)
    (plen : Nat) (sp : Addr) (src_plen m ifindex : Nat) (proto : Int)
    (hfind : find_xroute t p plen sp src_plen = none)
    (hrc : 0 < (add_xroute alloc_ok t p plen sp src_plen m ifindex proto).2) :
    (add_xroute alloc_ok t p plen sp src_plen m ifindex proto).1.numxroutes
      = t.numxroutes + 1 ∧
    (add_xroute alloc_ok t p plen sp src_plen m ifindex proto).1.get t.numxroutes =
      { pfx := p, plen := plen, src_pfx := sp, src_plen := src_plen,
        metric := m, ifindex := ifindex, proto := proto } := by
  have hs := wf_slots hwf
  unfold add_xroute at hrc ⊢
  rw [hfind] at hrc ⊢
  by_cases hroom : t.numxroutes ≥ t.maxxroutes
  · simp only [hroom, if_true] at hrc ⊢
    cases alloc_ok with
    | false => simp at hrc
    | true =>
      simp only [if_true]
      refine ⟨rfl, ?_⟩
      apply append_xroute_get
        { xroutes := some (List.replicate (if t.maxxroutes < 1 then 8 else 2 * t.maxxroutes)
            Xroute.zero),
          numxroutes := t.numxroutes,
          maxxroutes := if t.maxxroutes < 1 then 8 else 2 * t.maxxroutes }
      simp only [Table.slots, Option.getD_some, List.length_replicate]
      split <;> omega
  · simp only [hroom, if_false]
    exact ⟨rfl, append_xroute_get t p plen sp src_plen m ifindex proto (by omega)⟩

/-- What `xroute_add_new_route` writes. Two calls that differ only in the raw metric
give the same table, the same outgoing calls and the same result; and on a memory-safe
table, when a candidate whose key is not found is admitted (the result is 1), the
population grows by one and the entry written at slot `numxroutes` carries the
candidate's key, interface index and protocol and the metric the filter gave. This
says nothing of what a later lookup of the key returns. -/
theorem xroute_add_new_route_written_entry (env : Env) (alloc_ok : Bool) (t : Table)
    (p : Addr) (plen : Nat) (sp : Addr) (src_plen ifindex : Nat) (proto send_updates : Int) :
    (∀ m1 m2 : Nat,
      xroute_add_new_route env alloc_ok t p plen sp src_plen m1 ifindex proto send_updates =
      xroute_add_new_route env alloc_ok t p plen sp src_plen m2 ifindex proto send_updates) ∧
    (t.wf → find_xroute t p plen sp src_plen = none → ∀ m : Nat,
      (xroute_add_new_route env alloc_ok t p plen sp src_plen m ifindex proto
        send_updates).2.2 = 1 →
      (xroute_add_new_route env alloc_ok t p plen sp src_plen m ifindex proto
        send_updates).1.numxroutes = t.numxroutes + 1 ∧
      (xroute_add_new_route env alloc_ok t p plen sp src_plen m ifindex proto
        send_updates).1.get t.numxroutes =
        { pfx := p, plen := plen, src_pfx := sp, src_plen := src_plen,
          metric := env.redistribute_filter p plen ifindex proto,
          ifindex := ifindex, proto := proto }) := by
  constructor
  · intro m1 m2
    rfl
  · intro hwf hfind m hres
    unfold xroute_add_new_route at hres ⊢
    by_cases hm : env.martian_prefix p plen = true
    · simp [hm] at hres
    · simp only [hm, Bool.false_eq_true, if_false] at hres ⊢
      by_cases hf : env.redistribute_filter p plen ifindex proto < env.INFINITY
      · simp only [hf, if_true] at hres ⊢
        by_cases hrc : (add_xroute alloc_ok t p plen sp src_plen
            (env.redistribute_filter p plen ifindex proto) ifindex proto).2 > 0
        · simp only [hrc, if_true]
          exact add_xroute_absent_get hwf alloc_ok p plen sp src_plen _ ifindex proto hfind hrc
        · simp [hrc] at hres
      · simp [hf] at hres

/-- In a list whose keys are pairwise distinct, two positions holding the same key are
the same position. -/
theorem nodup_keys_index_eq {l : List Xroute} (hnd : (l.map Xroute.key).Nodup) {i j : Nat}
    {a b : Xroute} (ha : l[i]? = some a) (hb : l[j]? = some b) (hk : a.key = b.key) :
    i = j := by
  have hi : i < l.length := by
    by_contra hc
    rw [List.getElem?_eq_none (by omega)] at ha
    cases ha
  have hj : j < l.length := by
    by_contra hc
    rw [List.getElem?_eq_none (by omega)] at hb
    cases hb
  rw [List.getElem?_eq_getElem hi] at ha
  rw [List.getElem?_eq_getElem hj] at hb
  cases ha
  cases hb
  have hi2 : i < (l.map Xroute.key).length := by simpa using hi
  have hj2 : j < (l.map Xroute.key).length := by simpa using hj
  have heq : (l.map Xroute.key)[i] = (l.map Xroute.key)[j] := by
    simpa using hk
  exact (hnd.getElem_inj_iff).1 heq

/-- A stored entry is found by the lookup of its key, at some slot. -/
theorem find_xroute_of_mem {t : Table} {y : Xroute} (hy : y ∈ t.entries) :
    ∃ j, find_xroute t y.pfx y.plen y.src_pfx y.src_plen = some j := by
  classical
  have hex : ∃ i, i < t.numxroutes ∧ ∃ x, t.slots[i]? = some x ∧ x.key = y.key := by
    simp only [Table.entries] at hy
    obtain ⟨i, hi, hiy⟩ := List.mem_take_iff_getElem.1 hy
    exact ⟨i, by omega, y, by rw [← hiy]; exact List.getElem?_eq_getElem _, rfl⟩
  refine ⟨Nat.find hex, ?_⟩
  have hspec := Nat.find_spec hex
  unfold find_xroute
  apply find_loop_of_first (Nat.zero_le _) (by omega) hspec.2
  intro k _ hk x hx hkey
  exact Nat.find_min hex hk ⟨by omega, x, hx, hkey⟩

/-- What a successful lookup returns is a stored entry with the key. -/
theorem find_xroute_get_mem {t : Table} {p : Addr} {plen : Nat} {sp : Addr} {src_plen j : Nat}
    (h : find_xroute t p plen sp src_plen = some j) :
    t.get j ∈ t.entries ∧ (t.get j).key = (p, plen, sp, src_plen) ∧
      t.entries[j]? = some (t.get j) := by
  obtain ⟨hj, x, hx, hkey⟩ := find_xroute_some h
  rw [get_of_slot hx]
  refine ⟨mem_entries_of_slot hj hx, hkey, ?_⟩
  simp only [Table.entries, List.getElem?_take, hj, if_true, hx]

/-- The stored entries after `flush_xroute` on a slot in use are, up to order, the
entries before with that slot taken out. -/
theorem flush_xroute_perm (realloc_ok : Bool) {t : Table} (hwf : t.wf) {i : Nat}
    (hi : i < t.numxroutes) :
    ∃ t1, flush_xroute realloc_ok t i = some t1 ∧ t1.numxroutes + 1 = t.numxroutes ∧
      List.Perm t1.entries (t.entries.eraseIdx i) := by
  obtain ⟨t1, h1, hn, he⟩ := flush_xroute_entries realloc_ok hwf hi
  have hs := wf_slots hwf
  have hsplit := entries_split hwf (by omega)
  have hlen : (t.slots.take (t.numxroutes - 1)).length = t.numxroutes - 1 := by
    rw [List.length_take]; omega
  refine ⟨t1, h1, by omega, ?_⟩
  rw [he, hsplit]
  by_cases hlast : i ≠ t.numxroutes - 1
  · rw [if_pos hlast]
    exact set_perm_eraseIdx_append _ _ i (by omega)
  · rw [if_neg hlast]
    have hi2 : i = (t.slots.take (t.numxroutes - 1)).length := by omega
    rw [hi2, eraseIdx_append_last]

/-- Removal of the slot a lookup returned, on a table with pairwise distinct keys:
the key is no longer found and the lookup of every other key returns the entry it
returned before. -/
theorem withdraw_present_core (realloc_ok : Bool) {t : Table} (hwf : t.wf)
    (hnd : (t.entries.map Xroute.key).Nodup) {p : Addr} {plen : Nat} {sp : Addr}
    {src_plen : Nat} (hstored : ∃ y ∈ t.entries, y.key = (p, plen, sp, src_plen)) :
    ∃ t1, withdraw realloc_ok t p plen sp src_plen = some t1 ∧
      find_xroute t1 p plen sp src_plen = none ∧
      t1.numxroutes + 1 = t.numxroutes ∧
      ∀ (p1 : Addr) (plen1 : Nat) (sp1 : Addr) (src_plen1 : Nat),
        (p1, plen1, sp1, src_plen1) ≠ (p, plen, sp, src_plen) →
        (find_xroute t1 p1 plen1 sp1 src_plen1).map t1.get =
          (find_xroute t p1 plen1 sp1 src_plen1).map t.get := by
  obtain ⟨y, hy, hykey⟩ := hstored
  obtain ⟨i, hfind⟩ := find_xroute_of_mem hy
  have hykey4 : y.pfx = p ∧ y.plen = plen ∧ y.src_pfx = sp ∧ y.src_plen = src_plen := by
    simpa [Xroute.key] using hykey
  obtain ⟨rfl, rfl, rfl, rfl⟩ := hykey4
  obtain ⟨hi, hikey, higet⟩ := find_xroute_get_mem hfind
  have hlt := (find_xroute_some hfind).1
  obtain ⟨t1, hflush, hn, hperm⟩ := flush_xroute_perm realloc_ok hwf hlt
  have hsub : ∀ x, x ∈ t1.entries → ∃ j, j ≠ i ∧ t.entries[j]? = some x := by
    intro x hx
    exact List.mem_eraseIdx_iff_getElem?.1 (hperm.mem_iff.1 hx)
  refine ⟨t1, ?_, ?_, hn, ?_⟩
  · unfold withdraw
    rw [hfind]
    exact hflush
  · apply find_xroute_none_of_absent
    intro x hx hxkey
    obtain ⟨j, hji, hjx⟩ := hsub x hx
    exact hji (nodup_keys_index_eq hnd hjx higet (by rw [hxkey, hikey]))
  · intro p1 plen1 sp1 src_plen1 hne
    cases hf : find_xroute t p1 plen1 sp1 src_plen1 with
    | none =>
      have habs := (find_xroute_none_iff hwf p1 plen1 sp1 src_plen1).1 hf
      have : find_xroute t1 p1 plen1 sp1 src_plen1 = none := by
        apply find_xroute_none_of_absent
        intro x hx
        obtain ⟨j, _, hjx⟩ := hsub x hx
        exact habs x (List.mem_iff_getElem?.2 ⟨j, hjx⟩)
      rw [this]
      rfl
    | some j =>
      obtain ⟨hjmem, hjkey, hjget⟩ := find_xroute_get_mem hf
      have hji : j ≠ i := by
        intro hc
        subst hc
        rw [hjkey] at hikey
        exact hne hikey
      have hmem1 : t.get j ∈ t1.entries :=
        hperm.mem_iff.2 (List.mem_eraseIdx_iff_getElem?.2 ⟨j, hji, hjget⟩)
      obtain ⟨j1, hf1⟩ := find_xroute_of_mem hmem1
      have hkeyeq : ((t.get j).pfx, (t.get j).plen, (t.get j).src_pfx, (t.get j).src_plen)
          = (p1, plen1, sp1, src_plen1) := hjkey
      simp only [Prod.mk.injEq] at hkeyeq
      rw [hkeyeq.1, hkeyeq.2.1, hkeyeq.2.2.1, hkeyeq.2.2.2] at hf1
      obtain ⟨h1mem, h1key, _⟩ := find_xroute_get_mem hf1
      obtain ⟨k, _, hk⟩ := hsub _ h1mem
      have hkj : k = j := nodup_keys_index_eq hnd hk hjget (by rw [h1key, hjkey])
      subst hkj
      rw [hjget] at hk
      rw [hf1]
      simp only [Option.map_some', Option.some.injEq]
      exact (Option.some.inj hk).symm

/-- C16. Withdrawal of a present key makes it absent: on a memory-safe table whose
stored keys are pairwise distinct, for a key K that some stored entry has, the
lookup-then-removal of the delete functions returns, afterwards `find_xroute(K)` is
`NULL`, the population is one less, and for every other key the lookup returns the
same entry (key, metric, interface index, protocol) as before, or `NULL` if it
returned `NULL` before; `babel_ipv6_route_delete` does so on the key made of its two
prefixes, with no outgoing call. -/
theorem withdraw_present_key (env : Env) (realloc_ok : Bool) (t : Table) (hwf : t.wf)
    (hnd : (t.entries.map Xroute.key).Nodup) :
    (∀ (p : Addr) (plen : Nat) (sp : Addr) (src_plen : Nat),
      (∃ y ∈ t.entries, y.key = (p, plen, sp, src_plen)) →
      ∃ t1, withdraw realloc_ok t p plen sp src_plen = some t1 ∧
        find_xroute t1 p plen sp src_plen = none ∧
        t1.numxroutes + 1 = t.numxroutes ∧
        ∀ (p1 : Addr) (plen1 : Nat) (sp1 : Addr) (src_plen1 : Nat),
          (p1, plen1, sp1, src_plen1) ≠ (p, plen, sp, src_plen) →
          (find_xroute t1 p1 plen1 sp1 src_plen1).map t1.get =
            (find_xroute t p1 plen1 sp1 src_plen1).map t.get) ∧
    (∀ (pfx6 : Addr) (prefixlen : Nat) (src6 : Addr) (src_prefixlen : Nat),
      (∃ y ∈ t.entries, y.key =
        (env.in6addr_to_uchar pfx6, prefixlen, env.in6addr_to_uchar src6, src_prefixlen)) →
      ∃ t1, babel_ipv6_route_delete env realloc_ok t pfx6 prefixlen src6 src_prefixlen
          = some (t1, []) ∧
        find_xroute t1 (env.in6addr_to_uchar pfx6) prefixlen (env.in6addr_to_uchar src6)
          src_prefixlen = none ∧
        t1.numxroutes + 1 = t.numxroutes ∧
        ∀ (p1 : Addr) (plen1 : Nat) (sp1 : Addr) (src_plen1 : Nat),
          (p1, plen1, sp1, src_plen1) ≠
            (env.in6addr_to_uchar pfx6, prefixlen, env.in6addr_to_uchar src6, src_prefixlen) →
          (find_xroute t1 p1 plen1 sp1 src_plen1).map t1.get =
            (find_xroute t p1 plen1 sp1 src_plen1).map t.get) := by
  constructor
  · intro p plen sp src_plen hstored
    exact withdraw_present_core realloc_ok hwf hnd hstored
  · intro pfx6 prefixlen src6 src_prefixlen hstored
    obtain ⟨t1, h1, h2, h3, h4⟩ := withdraw_present_core realloc_ok hwf hnd hstored
    refine ⟨t1, ?_, h2, h3, h4⟩
    unfold babel_ipv6_route_delete
    rw [h1]
    rfl

/-- Witness for C16: the key of slot 2 of the full table, withdrawn directly and
through `babel_ipv6_route_delete`. -/
theorem withdraw_present_key_witness :
    (∃ t1, withdraw true full_table (addr_of_byte 3) 8 zeroes 0 = some t1 ∧
        find_xroute t1 (addr_of_byte 3) 8 zeroes 0 = none ∧
        t1.numxroutes + 1 = full_table.numxroutes ∧
        ∀ (p1 : Addr) (plen1 : Nat) (sp1 : Addr) (src_plen1 : Nat),
          (p1, plen1, sp1, src_plen1) ≠ (addr_of_byte 3, 8, zeroes, 0) →
          (find_xroute t1 p1 plen1 sp1 src_plen1).map t1.get =
            (find_xroute full_table p1 plen1 sp1 src_plen1).map full_table.get) ∧
    (∃ t1, babel_ipv6_route_delete sample_env true full_table (addr_of_byte 3) 8 zeroes 0
          = some (t1, []) ∧
        find_xroute t1 (sample_env.in6addr_to_uchar (addr_of_byte 3)) 8
          (sample_env.in6addr_to_uchar zeroes) 0 = none ∧
        t1.numxroutes + 1 = full_table.numxroutes ∧
        ∀ (p1 : Addr) (plen1 : Nat) (sp1 : Addr) (src_plen1 : Nat),
          (p1, plen1, sp1, src_plen1) ≠
            (sample_env.in6addr_to_uchar (addr_of_byte 3), 8,
              sample_env.in6addr_to_uchar zeroes, 0) →
          (find_xroute t1 p1 plen1 sp1 src_plen1).map t1.get =
            (find_xroute full_table p1 plen1 sp1 src_plen1).map full_table.get) :=
  ⟨(withdraw_present_key sample_env true full_table (by decide) (by decide)).1
      (addr_of_byte 3) 8 zeroes 0 ⟨full_table.get 2, by decide, by decide⟩,
   (withdraw_present_key sample_env true full_table (by decide) (by decide)).2
      (addr_of_byte 3) 8 zeroes 0 ⟨full_table.get 2, by decide, by decide⟩⟩

/-- C14 fails on the code. On the full table (eight entries, capacity 8, destinations
`1.0.../8` to `8.0.../8`) the key `::/0` is not found; `add_xroute` for it with metric
10, interface 1 and the allocation succeeding returns 1 and the population becomes 9,
but the lookup of `::/0` then returns slot 0, whose metric and interface index are 0;
the candidate's entry is at slot 8, behind eight zeroed slots. On the empty table the
same upsert gives population 1 and a stored metric of 10. -/
theorem add_xroute_insert_lookup_mismatch :
    find_xroute full_table zeroes 0 zeroes 0 = none ∧
    (add_xroute true full_table zeroes 0 zeroes 0 10 1 0).2 = 1 ∧
    (add_xroute true full_table zeroes 0 zeroes 0 10 1 0).1.numxroutes = 9 ∧
    find_xroute (add_xroute true full_table zeroes 0 zeroes 0 10 1 0).1 zeroes 0 zeroes 0
      = some 0 ∧
    ((add_xroute true full_table zeroes 0 zeroes 0 10 1 0).1.get 0).metric = 0 ∧
    ((add_xroute true full_table zeroes 0 zeroes 0 10 1 0).1.get 0).ifindex = 0 ∧
    (add_xroute true full_table zeroes 0 zeroes 0 10 1 0).1.get 8 = default_cand.toXroute ∧
    (add_xroute true Table.empty zeroes 0 zeroes 0 10 1 0).1.numxroutes = 1 ∧
    (find_xroute (add_xroute true Table.empty zeroes 0 zeroes 0 10 1 0).1 zeroes 0 zeroes 0).map
      (fun i => ((add_xroute true Table.empty zeroes 0 zeroes 0 10 1 0).1.get i).metric)
      = some 10 :=
  ⟨by decide, by decide, by decide, by decide, by decide, by decide, by decide, by decide,
   by decide⟩

/-- C17 fails on the code. In `sample_env` the key `::/0` is not martian and the
filter gives metric 7 (below `INFINITY`), and the full table does not hold the key.
`xroute_add_new_route` for it returns 1, with the same result for the raw metrics 3
and 900, and `babel_ipv6_route_add` gives that same table; but the lookup of `::/0`
then returns slot 0, whose metric is 0 and not the filter's 7: the entry written with
metric 7 is at slot 8, behind the slots zeroed at the reallocation. -/
theorem xroute_add_new_route_lookup_metric_mismatch :
    find_xroute full_table zeroes 0 zeroes 0 = none ∧
    sample_env.martian_prefix zeroes 0 = false ∧
    sample_env.redistribute_filter zeroes 0 1 0 = 7 ∧
    sample_env.redistribute_filter zeroes 0 1 0 < sample_env.INFINITY ∧
    (xroute_add_new_route sample_env true full_table zeroes 0 zeroes 0 3 1 0 1).2.2 = 1 ∧
    xroute_add_new_route sample_env true full_table zeroes 0 zeroes 0 3 1 0 1 =
      xroute_add_new_route sample_env true full_table zeroes 0 zeroes 0 900 1 0 1 ∧
    (babel_ipv6_route_add sample_env true full_table 3 zeroes 0 zeroes 0 1).1 =
      (xroute_add_new_route sample_env true full_table zeroes 0 zeroes 0 3 1 0 1).1 ∧
    find_xroute (xroute_add_new_route sample_env true full_table zeroes 0 zeroes 0 3 1 0 1).1
      zeroes 0 zeroes 0 = some 0 ∧
    ((xroute_add_new_route sample_env true full_table zeroes 0 zeroes 0 3 1 0 1).1.get
      0).metric = 0 ∧
    ((xroute_add_new_route sample_env true full_table zeroes 0 zeroes 0 3 1 0 1).1.get
      8).metric = 7 :=
  ⟨by decide, by decide, by decide, by decide, by decide, rfl, by decide, by decide,
   by decide, by decide⟩

/-- An insert of a key that is not stored and is not the all-zero key stores the
candidate at slot `numxroutes`, where the lookup of the key finds it; the
lookup-then-removal of that key then leaves the key not found, the population as it
was before the insert, and the stored entries as they were after the insert without
the last one. -/
theorem add_then_withdraw {t : Table} (hwf : t.wf) (realloc_ok : Bool) (c : Cand)
    (habs : ∀ y ∈ t.entries, y.key ≠ c.key) (hz : Xroute.zero.key ≠ c.key) :
    (add_xroute true t c.pfx c.plen c.src_pfx c.src_plen c.metric c.ifindex c.proto).2 = 1 ∧
    (add_cand true t c).numxroutes = t.numxroutes + 1 ∧
    find_xroute (add_cand true t c) c.pfx c.plen c.src_pfx c.src_plen = some t.numxroutes ∧
    (add_cand true t c).get t.numxroutes = c.toXroute ∧
    ∃ t2, withdraw realloc_ok (add_cand true t c) c.pfx c.plen c.src_pfx c.src_plen = some t2 ∧
      find_xroute t2 c.pfx c.plen c.src_pfx c.src_plen = none ∧
      t2.numxroutes = t.numxroutes ∧
      (t.numxroutes < t.maxxroutes → t2.entries = t.entries) := by
  have hfind : find_xroute t c.pfx c.plen c.src_pfx c.src_plen = none :=
    find_xroute_none_of_absent habs
  obtain ⟨hrc, hwf1, hn1, _, he1⟩ := add_xroute_absent hwf c hfind
  have hs1 := wf_slots hwf1
  have hXlen : (if t.numxroutes < t.maxxroutes then t.entries
      else List.replicate t.numxroutes Xroute.zero).length = t.numxroutes := by
    split
    · exact entries_length hwf
    · exact List.length_replicate _ _
  have hX : ∀ x ∈ (if t.numxroutes < t.maxxroutes then t.entries
      else List.replicate t.numxroutes Xroute.zero), x.key ≠ c.key := by
    intro x hx
    split at hx
    · exact habs x hx
    · rw [List.eq_of_mem_replicate hx]
      exact hz
  have hslot : ∀ k, k < t.numxroutes + 1 →
      (add_cand true t c).slots[k]? = (add_cand true t c).entries[k]? := by
    intro k hk
    simp only [Table.entries, List.getElem?_take, hn1, hk, if_true]
  have hlastslot : (add_cand true t c).slots[t.numxroutes]? = some c.toXroute := by
    rw [hslot _ (by omega), he1, List.getElem?_append_right (by omega), hXlen]
    simp
  have hfind1 : find_xroute (add_cand true t c) c.pfx c.plen c.src_pfx c.src_plen
      = some t.numxroutes := by
    unfold find_xroute
    apply find_loop_of_first (Nat.zero_le _) (by omega)
    · exact ⟨c.toXroute, hlastslot, rfl⟩
    · intro k _ hk y hy
      rw [hslot _ (by omega), he1, List.getElem?_append_left (by omega)] at hy
      exact hX y (List.mem_iff_getElem?.2 ⟨k, hy⟩)
  refine ⟨hrc, hn1, hfind1, get_of_slot hlastslot, ?_⟩
  have hlt : t.numxroutes < (add_cand true t c).numxroutes := by omega
  obtain ⟨t2, hflush, hn2, he2⟩ := flush_xroute_entries realloc_ok hwf1 hlt
  have hlast : ¬ (t.numxroutes ≠ (add_cand true t c).numxroutes - 1) := by omega
  rw [if_neg hlast] at he2
  have he2b : t2.entries = (if t.numxroutes < t.maxxroutes then t.entries
      else List.replicate t.numxroutes Xroute.zero) := by
    have htake : List.take ((add_cand true t c).numxroutes - 1) (add_cand true t c).slots
        = List.take t.numxroutes (add_cand true t c).entries := by
      simp only [Table.entries, List.take_take, hn1]
      congr 1
      omega
    rw [he2, htake, he1, List.take_left' hXlen]
  refine ⟨t2, ?_, ?_, by omega, ?_⟩
  · unfold withdraw
    rw [hfind1]
    exact hflush
  · apply find_xroute_none_of_absent
    intro x hx
    rw [he2b] at hx
    exact hX x hx
  · intro hroom
    rw [he2b, if_pos hroom]

/-- C18. IPv4 import and withdrawal use one canonical key. For a prefix length
`L <= 32`, `babel_ipv4_route_add` is `xroute_add_new_route` on the key
(`inaddr_to_uchar(prefix)`, `L + 96`, all-zero source prefix, source length 0) with
propagation on, and `babel_ipv4_route_delete` is the lookup-then-removal of that same
key. Hence, on a memory-safe table that does not hold the key, where the delete of the
prefix changes nothing, an admitted add (not martian, filter metric below `INFINITY`,
allocation succeeding) raises the population by one and stores at slot `numxroutes`,
where the lookup of the canonical key finds it, the entry with that key, the filter's
metric, the interface index and protocol 0, announcing it with `send_update` on the
key; the delete of the same prefix then returns with no outgoing call, the key not
found, the population equal to the one before the add, and, when the add did not
reallocate, the stored entries equal to those before the add. -/
theorem babel_ipv4_add_delete (env : Env) (alloc_ok realloc_ok : Bool) (t : Table)
    (pfx4 : In4) (L api_metric ifindex : Nat) (hL : L ≤ 32) :
    babel_ipv4_route_add env alloc_ok t api_metric pfx4 L ifindex =
      ((xroute_add_new_route env alloc_ok t (env.inaddr_to_uchar pfx4) (L + 96) zeroes 0
          (api_metric % 65536) ifindex 0 1).1,
       (xroute_add_new_route env alloc_ok t (env.inaddr_to_uchar pfx4) (L + 96) zeroes 0
          (api_metric % 65536) ifindex 0 1).2.1) ∧
    babel_ipv4_route_delete env realloc_ok t pfx4 L =
      (withdraw realloc_ok t (env.inaddr_to_uchar pfx4) (L + 96) zeroes 0).map
        (fun t1 => (t1, [])) ∧
    (t.wf →
      (∀ y ∈ t.entries, y.key ≠ (env.inaddr_to_uchar pfx4, L + 96, zeroes, 0)) →
      env.martian_prefix (env.inaddr_to_uchar pfx4) (L + 96) = false →
      env.redistribute_filter (env.inaddr_to_uchar pfx4) (L + 96) ifindex 0 < env.INFINITY →
      babel_ipv4_route_delete env realloc_ok t pfx4 L = some (t, []) ∧
      (babel_ipv4_route_add env true t api_metric pfx4 L ifindex).1.numxroutes
        = t.numxroutes + 1 ∧
      find_xroute (babel_ipv4_route_add env true t api_metric pfx4 L ifindex).1
        (env.inaddr_to_uchar pfx4) (L + 96) zeroes 0 = some t.numxroutes ∧
      (babel_ipv4_route_add env true t api_metric pfx4 L ifindex).1.get t.numxroutes =
        { pfx := env.inaddr_to_uchar pfx4, plen := L + 96, src_pfx := zeroes, src_plen := 0,
          metric := env.redistribute_filter (env.inaddr_to_uchar pfx4) (L + 96) ifindex 0,
          ifindex := ifindex, proto := 0 } ∧
      (babel_ipv4_route_add env true t api_metric pfx4 L ifindex).2 =
        [Event.find_installed_route (env.inaddr_to_uchar pfx4) (L + 96) zeroes 0] ++
          (match env.find_installed_route (env.inaddr_to_uchar pfx4) (L + 96) zeroes 0 with
           | some route => [Event.uninstall_route route]
           | none => []) ++
          [Event.send_update (env.inaddr_to_uchar pfx4) (L + 96) zeroes 0] ∧
      ∃ t2, babel_ipv4_route_delete env realloc_ok
          (babel_ipv4_route_add env true t api_metric pfx4 L ifindex).1 pfx4 L
            = some (t2, []) ∧
        find_xroute t2 (env.inaddr_to_uchar pfx4) (L + 96) zeroes 0 = none ∧
        t2.numxroutes = t.numxroutes ∧
        (t.numxroutes < t.maxxroutes → t2.entries = t.entries)) := by
  have hmod : (L + 96) % 256 = L + 96 := Nat.mod_eq_of_lt (by omega)
  refine ⟨?_, ?_, ?_⟩
  · unfold babel_ipv4_route_add
    rw [hmod]
  · unfold babel_ipv4_route_delete
    rw [hmod]
  · intro hwf habs hmart hfil
    have hz : Xroute.zero.key ≠ (env.inaddr_to_uchar pfx4, L + 96, zeroes, 0) := by
      intro hc
      have h2 := congrArg (fun k => k.2.1) hc
      simp only [Xroute.key, Xroute.zero] at h2
      omega
    obtain ⟨hrc, hn1, hf1, hg1, t2, hw, hf2, hn2, he2⟩ := add_then_withdraw hwf realloc_ok
      { pfx := env.inaddr_to_uchar pfx4, plen := L + 96, src_pfx := zeroes, src_plen := 0,
        metric := env.redistribute_filter (env.inaddr_to_uchar pfx4) (L + 96) ifindex 0,
        ifindex := ifindex, proto := 0 } habs hz
    simp only at hrc hf1
    have hpos : (add_xroute true t (env.inaddr_to_uchar pfx4) (L + 96) zeroes 0
        (env.redistribute_filter (env.inaddr_to_uchar pfx4) (L + 96) ifindex 0)
        ifindex 0).2 > 0 := by rw [hrc]; decide
    have hadd : (babel_ipv4_route_add env true t api_metric pfx4 L ifindex).1 =
        add_cand true t
          { pfx := env.inaddr_to_uchar pfx4, plen := L + 96, src_pfx := zeroes, src_plen := 0,
            metric := env.redistribute_filter (env.inaddr_to_uchar pfx4) (L + 96) ifindex 0,
            ifindex := ifindex, proto := 0 } := by
      unfold babel_ipv4_route_add xroute_add_new_route
      simp only [hmod, hmart, Bool.false_eq_true, if_false, hfil, if_true, hpos]
      rfl
    have hev : (babel_ipv4_route_add env true t api_metric pfx4 L ifindex).2 =
        [Event.find_installed_route (env.inaddr_to_uchar pfx4) (L + 96) zeroes 0] ++
          (match env.find_installed_route (env.inaddr_to_uchar pfx4) (L + 96) zeroes 0 with
           | some route => [Event.uninstall_route route]
           | none => []) ++
          [Event.send_update (env.inaddr_to_uchar pfx4) (L + 96) zeroes 0] := by
      unfold babel_ipv4_route_add xroute_add_new_route
      simp only [hmod, hmart, Bool.false_eq_true, if_false, hfil, if_true, hpos]
      rfl
    have hdel0 : babel_ipv4_route_delete env realloc_ok t pfx4 L = some (t, []) := by
      unfold babel_ipv4_route_delete withdraw
      rw [hmod, find_xroute_none_of_absent habs]
      rfl
    refine ⟨hdel0, ?_, ?_, ?_, hev, t2, ?_, hf2, hn2, he2⟩
    · rw [hadd]; exact hn1
    · rw [hadd]; exact hf1
    · rw [hadd]; exact hg1
    · unfold babel_ipv4_route_delete
      rw [hmod, hadd, hw]
      rfl

/-- Witness for C18: 10.0.0.1/32 on the full table, whose insert reallocates. -/
theorem babel_ipv4_add_delete_witness :
    babel_ipv4_route_delete sample_env true full_table ten_addr 32 = some (full_table, []) ∧
    (babel_ipv4_route_add sample_env true full_table 3 ten_addr 32 1).1.numxroutes
      = full_table.numxroutes + 1 ∧
    find_xroute (babel_ipv4_route_add sample_env true full_table 3 ten_addr 32 1).1
      (sample_env.inaddr_to_uchar ten_addr) (32 + 96) zeroes 0 = some full_table.numxroutes ∧
    (babel_ipv4_route_add sample_env true full_table 3 ten_addr 32 1).1.get
        full_table.numxroutes =
      { pfx := sample_env.inaddr_to_uchar ten_addr, plen := 32 + 96, src_pfx := zeroes,
        src_plen := 0,
        metric := sample_env.redistribute_filter (sample_env.inaddr_to_uchar ten_addr)
          (32 + 96) 1 0,
        ifindex := 1, proto := 0 } ∧
    (babel_ipv4_route_add sample_env true full_table 3 ten_addr 32 1).2 =
      [Event.find_installed_route (sample_env.inaddr_to_uchar ten_addr) (32 + 96) zeroes 0] ++
        (match sample_env.find_installed_route (sample_env.inaddr_to_uchar ten_addr) (32 + 96)
            zeroes 0 with
         | some route => [Event.uninstall_route route]
         | none => []) ++
        [Event.send_update (sample_env.inaddr_to_uchar ten_addr) (32 + 96) zeroes 0] ∧
    ∃ t2, babel_ipv4_route_delete sample_env true
        (babel_ipv4_route_add sample_env true full_table 3 ten_addr 32 1).1 ten_addr 32
          = some (t2, []) ∧
      find_xroute t2 (sample_env.inaddr_to_uchar ten_addr) (32 + 96) zeroes 0 = none ∧
      t2.numxroutes = full_table.numxroutes ∧
      (full_table.numxroutes < full_table.maxxroutes → t2.entries = full_table.entries) :=
  (babel_ipv4_add_delete sample_env true true full_table ten_addr 32 3 1 (by decide)).2.2
    (by decide) (by decide) (by decide) (by decide)

end Babel
